import Mathlib

/-!
Verification of the histomap timeline renderer.

This development shallowly embeds the core modules of the repository and
proves (or refutes) the specification's claims about them:

* the `TimeScale` class of the time-scale module (the first, most complete
  version in the repository): `yearToX`, `xToYear` and the axis-tick
  generators, and
* the band renderer of the visualization module: `drawPeopleBand` (the
  general collision-avoiding placement loop, the presidents-band
  alternating layout, and the color-assignment pass) and the stacked-area
  geometry of `drawGDPBlocsBand`.

Modelling conventions:

* JavaScript floating-point numbers are modelled as exact numbers: ℝ for
  the coordinate mapping of `TimeScale` (which uses `Math.log` and
  `Math.pow`), and ℚ for all pixel geometry of the band renderer (which
  uses only field operations).  Years and timestamps are integers in the
  data (the loader sets `startTimestamp = startYear`).
* JavaScript truthiness of a nullable number (`a || b`, `if (a)`) is
  modelled explicitly: `null`/`undefined` and `0` are falsy (`jsOrInt`).
* `Array.prototype.sort`, which is stable, is modelled by the stable
  `List.insertionSort`; a stable sort with a total transitive comparator
  has a unique result, so any stable model is extensionally faithful.
-/

namespace Histomap

/-- The two scale modes of the time-scale module (`config.scale`,
`'linear' | 'logarithmic'`). -/
inductive Scale where
| linear : Scale
| logarithmic : Scale
deriving DecidableEq, Repr

/-! ## TimeScale: year ↔ pixel coordinate mapping

Embeds the `TimeScale` class of the time-scale module (constructor,
`calculateLog`, `yearToX` / `linearYearToX` / `logarithmicYearToX`,
`xToYear`).  All numbers are real. -/

/-- The `TimeScale` instance state: configuration plus the dimensions
supplied to the constructor.  `maxLogValue` / `minLogValue`, which the
constructor precomputes, are derived definitions below. -/
structure TimeScale where
  scale : Scale
  startYear : ℝ
  endYear : ℝ
  referenceYear : ℝ
  base : ℝ
  paddingLeft : ℝ
  chartWidth : ℝ

/-- Source `this.offset = 1` — prevents `log(0)`. -/
def TimeScale.offset : ℝ := 1

/-- Source `calculateLog(value)`: logarithm of `value` in base `this.base`,
computed as `Math.log(value) / Math.log(this.base)`. -/
noncomputable def TimeScale.calculateLog (ts : TimeScale) (value : ℝ) : ℝ :=
  Real.log value / Real.log ts.base

/-- Source `this.maxLogValue = this.calculateLog(this.referenceYear - this.startYear + this.offset)`. -/
noncomputable def TimeScale.maxLogValue (ts : TimeScale) : ℝ :=
  ts.calculateLog (ts.referenceYear - ts.startYear + TimeScale.offset)

/-- Source `this.minLogValue = this.calculateLog(this.referenceYear - this.endYear + this.offset)`. -/
noncomputable def TimeScale.minLogValue (ts : TimeScale) : ℝ :=
  ts.calculateLog (ts.referenceYear - ts.endYear + TimeScale.offset)

/-- Source `linearYearToX(year)`. -/
noncomputable def TimeScale.linearYearToX (ts : TimeScale) (year : ℝ) : ℝ :=
  ts.paddingLeft + (year - ts.startYear) / (ts.endYear - ts.startYear) * ts.chartWidth

/-- Source `logarithmicYearToX(year)`. -/
noncomputable def TimeScale.logarithmicYearToX (ts : TimeScale) (year : ℝ) : ℝ :=
  let yearsBeforeRef := ts.referenceYear - year
  let logValue := ts.calculateLog (yearsBeforeRef + TimeScale.offset)
  let normalizedPosition := (ts.maxLogValue - logValue) / (ts.maxLogValue - ts.minLogValue)
  ts.paddingLeft + normalizedPosition * ts.chartWidth

/-- Source `yearToX(year)`: dispatch on the scale mode. -/
noncomputable def TimeScale.yearToX (ts : TimeScale) (year : ℝ) : ℝ :=
  if ts.scale = Scale.linear then ts.linearYearToX year else ts.logarithmicYearToX year

/-- Source `xToYear(x)`: the inverse mapping.  `Math.pow(this.base, logValue)` is
modelled by the real power `rpow`. -/
noncomputable def TimeScale.xToYear (ts : TimeScale) (x : ℝ) : ℝ :=
  let normalizedPosition := (x - ts.paddingLeft) / ts.chartWidth
  if ts.scale = Scale.linear then
    ts.startYear + normalizedPosition * (ts.endYear - ts.startYear)
  else
    let logValue := ts.maxLogValue - normalizedPosition * (ts.maxLogValue - ts.minLogValue)
    let yearsBeforeRef := ts.base ^ logValue - TimeScale.offset
    ts.referenceYear - yearsBeforeRef

/-- A well-formed `TimeScale` configuration: the invariant required of the
caller (`startYear < endYear`, positive chart width) together with the
documented preconditions of logarithmic mode (`base > 1`,
`referenceYear > endYear`). -/
def TimeScale.Valid (ts : TimeScale) : Prop :=
  ts.startYear < ts.endYear ∧ 0 < ts.chartWidth ∧
    (ts.scale = Scale.logarithmic → 1 < ts.base ∧ ts.endYear < ts.referenceYear)

/-! ## Axis tick generation

Embeds `getAxisTicks` and its helpers (`getLinearTicks`,
`getLargeRangeLinearTicks`, `getLogTicks`, `getLargeRangeLogTicks`,
`ensureReferenceTick`) of the time-scale module.  The generators iterate
over integer years, so the configuration years are `ℤ` here; the pixel
style fields (`height`, `width`, `opacity`) are ℚ.  A tick built without a
`labelWeight` property is modelled with `labelWeight = none`. -/

/-- One axis tick object. -/
structure Tick where
  year : ℤ
  showLabel : Bool
  showGrid : Bool
  height : ℚ
  width : ℚ
  color : String
  opacity : ℚ
  labelWeight : Option String
deriving DecidableEq, Repr

/-- The `TimeScale` configuration fields the tick generators read. -/
structure TickConfig where
  scale : Scale
  startYear : ℤ
  endYear : ℤ
  referenceYear : ℤ
deriving DecidableEq, Repr

/-- The inclusive integer range `lo..hi` of a JavaScript
`for (let year = lo; year <= hi; year++)` loop. -/
def intRange (lo hi : ℤ) : List ℤ :=
  (List.range (hi + 1 - lo).toNat).map (fun (i : ℕ) => lo + (i : ℤ))

/-- JavaScript `Math.ceil(a / b)` for integers with `b > 0`. -/
def ceilDivInt (a b : ℤ) : ℤ := -((-a).fdiv b)

/-- JavaScript `Math.floor(Math.log10(q))` for a rational `q ≥ 1`. -/
def floorLog10 (q : ℚ) : ℕ := Nat.log 10 ⌊q⌋.toNat

/-- JavaScript `Math.round` (round half towards +∞) on a rational. -/
def jsRound (q : ℚ) : ℤ := ⌊q + 1/2⌋

/-- Value of one hexadecimal digit character. -/
def hexDigitVal (c : Char) : ℕ :=
  if '0' ≤ c ∧ c ≤ '9' then c.toNat - '0'.toNat
  else if 'a' ≤ c ∧ c ≤ 'f' then c.toNat - 'a'.toNat + 10
  else if 'A' ≤ c ∧ c ≤ 'F' then c.toNat - 'A'.toNat + 10
  else 0

/-- JavaScript `parseInt(s, 16)` on a string of hex digits. -/
def parseHexNat (s : String) : ℕ :=
  s.foldl (fun acc c => acc * 16 + hexDigitVal c) 0

/-- Source `expandHex`: expand a 3-character hex color (`#abc`) to 6 characters
(`#aabbcc`); other strings pass through unchanged. -/
def expandHex (hex : String) : String :=
  match (hex.drop 1).toList with
  | [a, b, c] => String.mk ['#', a, a, b, b, c, c]
  | _ => hex

/-- Source `toHex` inside `interpolateColor`: `('0' + n.toString(16)).slice(-2)`. -/
def toHex2 (n : ℕ) : String :=
  let s := "0" ++ String.mk (Nat.toDigits 16 n)
  s.drop (s.length - 2)

/-- Source `interpolateColor(startColor, endColor, factor)`: linear interpolation
of two hex colors, component-wise with `Math.round`. -/
def interpolateColor (startColor endColor : String) (factor : ℚ) : String :=
  let startColor := expandHex startColor
  let endColor := expandHex endColor
  let startVal := parseHexNat (startColor.drop 1)
  let endVal := parseHexNat (endColor.drop 1)
  let startR := (startVal >>> 16) &&& 0xff
  let startG := (startVal >>> 8) &&& 0xff
  let startB := startVal &&& 0xff
  let endR := (endVal >>> 16) &&& 0xff
  let endG := (endVal >>> 8) &&& 0xff
  let endB := endVal &&& 0xff
  let r := jsRound ((startR : ℚ) + ((endR : ℚ) - startR) * factor)
  let g := jsRound ((startG : ℚ) + ((endG : ℚ) - startG) * factor)
  let b := jsRound ((startB : ℚ) + ((endB : ℚ) - startB) * factor)
  "#" ++ toHex2 r.toNat ++ toHex2 g.toNat ++ toHex2 b.toNat

/-- The tick `getLinearTicks` builds for one year of a span ≤ 10000:
50-year marks are labeled bold, decade marks labeled normal, other even
years keep the faint base grid line, and odd non-special years are
dropped (`continue`). -/
def linearTickFor (year : ℤ) : Option Tick :=
  if year % 50 = 0 then
    some ⟨year, true, true, 13, 2, "#5a6c7d", 0.6, some "bold"⟩
  else if year % 10 = 0 then
    some ⟨year, true, true, 6, 1, "#7f8c8d", 0.6, some "normal"⟩
  else if year % 2 ≠ 0 then
    none
  else
    some ⟨year, false, true, 0, 0.5, "#e8e8e8", 0.6, none⟩

/-- Source `ensureReferenceTick(ticks, year)`: if `year` is within range and not
already present, push a labeled reference tick onto the end of the
array. -/
def ensureReferenceTick (cfg : TickConfig) (ticks : List Tick) (year : ℤ) : List Tick :=
  if year < cfg.startYear ∨ year > cfg.endYear then ticks
  else if ticks.any (fun t => t.year = year) then ticks
  else ticks ++ [⟨year, true, true, 12, 1.5, "#b5b5b5", 1.0, some "bold"⟩]

/-- Ordering by year used for `ticks.sort((a, b) => a.year - b.year)`. -/
def tickYearLE (a b : Tick) : Prop := a.year ≤ b.year

instance : DecidableRel tickYearLE := fun a b =>
  inferInstanceAs (Decidable (a.year ≤ b.year))

/-- Source `getLargeRangeLinearTicks()`: "nice step" ticks for linear spans over
10000 years. -/
def getLargeRangeLinearTicks (cfg : TickConfig) : List Tick :=
  let yearRange := cfg.endYear - cfg.startYear
  let roughStep : ℚ := (yearRange : ℚ) / 12
  let power : ℤ := 10 ^ floorLog10 roughStep
  let stepOptions : List ℤ := [1, 2, 5, 10].map (· * power)
  let step : ℤ :=
    (stepOptions.find? (fun (o : ℤ) => decide (roughStep ≤ (o : ℚ)))).getD stepOptions.headI
  let startTick := (cfg.startYear.fdiv step) * step
  let endTick := (ceilDivInt cfg.endYear step) * step
  let count := ((endTick - startTick) / step + 1).toNat
  let ticks := (List.range count).filterMap (fun i =>
    let year := startTick + i * step
    if year < cfg.startYear ∨ year > cfg.endYear then none
    else some ⟨year, true, true, 12, 1.5, "#cfcfcf", 1.0, some "bold"⟩)
  (ensureReferenceTick cfg ticks 1).insertionSort tickYearLE

/-- Source `getLinearTicks()`. -/
def getLinearTicks (cfg : TickConfig) : List Tick :=
  if cfg.endYear - cfg.startYear > 10000 then getLargeRangeLinearTicks cfg
  else
    let ticks := (intRange cfg.startYear cfg.endYear).filterMap linearTickFor
    ensureReferenceTick cfg ticks 1

/-- The tick `getLogTicks` builds for one decade year of a span ≤ 50000. -/
def logTickFor (cfg : TickConfig) (year : ℤ) : Option Tick :=
  if year < cfg.startYear ∨ year > cfg.endYear then none
  else
    let yearRange := cfg.endYear - cfg.startYear
    let positionFactor : ℚ := ((year - cfg.startYear : ℤ) : ℚ) / (yearRange : ℚ)
    let isMillennium := year % 1000 = 0
    let isCentury := year % 100 = 0
    let showLabel := isMillennium ∨ (isCentury ∧ year ≥ 1000 ∧ year ≤ 2000)
    let height : ℚ := if isMillennium then (if showLabel then 13 else 0)
      else if isCentury then (if showLabel then 6 else 0) else 0
    let width : ℚ := if isMillennium then 2 else if isCentury then 1 else 0.5
    let color := if isMillennium then "#ccc"
      else if isCentury then interpolateColor "#eee" "#ddd" positionFactor
      else interpolateColor "#e3e3e3" "#d0d0d0" positionFactor
    some ⟨year, decide showLabel, true, height, width, color,
      if isCentury ∨ isMillennium then 1.0 else 0.5,
      if isMillennium then some "bold" else some "normal"⟩

/-- Source `getLargeRangeLogTicks()`: deep-time ticks (powers of ten of years
before the reference year, billion-year marks, 100M-year marks, forced
start/end ticks), de-duplicated by year and sorted ascending. -/
def getLargeRangeLogTicks (cfg : TickConfig) : List Tick :=
  let maxYearsBeforeRef := cfg.referenceYear - cfg.startYear
  let minYearsBeforeRef := cfg.referenceYear - cfg.endYear
  let maxPower := Nat.log 10 maxYearsBeforeRef.toNat
  let minPower := Nat.log 10 minYearsBeforeRef.toNat
  let powerTicks := ((List.range (maxPower + 1 - minPower)).map (minPower + ·)).filterMap
    (fun power =>
      let yearsBeforeRef : ℤ := 10 ^ power
      if yearsBeforeRef = 1000000000 then none
      else
        let year := cfg.referenceYear - yearsBeforeRef
        if year < cfg.startYear ∨ year > cfg.endYear then none
        else some ⟨year, true, true, 12, 1.5, "#cfcfcf", 1.0, some "bold"⟩)
  let billionTicks := (List.range 5).filterMap (fun i =>
    let year : ℤ := -((i : ℤ) + 1) * 1000000000
    if year < cfg.startYear ∨ year > cfg.endYear then none
    else some ⟨year, true, true, 12, 1.5, "#cfcfcf", 1.0, some "bold"⟩)
  let hundredMTicks := (List.range 8).filterMap (fun i =>
    let year : ℤ := -800000000 + (i : ℤ) * 100000000
    if year < cfg.startYear ∨ year > cfg.endYear then none
    else some ⟨year, true, true, 10, 1, "#d5d5d5", 0.9, some "normal"⟩)
  let ticks := powerTicks ++ billionTicks ++ hundredMTicks ++
    [⟨cfg.endYear, true, true, 12, 1.5, "#b5b5b5", 1.0, some "bold"⟩,
     ⟨cfg.startYear, true, true, 12, 1.5, "#b5b5b5", 1.0, some "bold"⟩]
  let unique := ticks.foldl
    (fun acc t => if acc.any (fun u => u.year = t.year) then acc else acc ++ [t]) []
  unique.insertionSort tickYearLE

/-- Source `getLogTicks()`. -/
def getLogTicks (cfg : TickConfig) : List Tick :=
  if cfg.endYear - cfg.startYear > 50000 then
    ensureReferenceTick cfg (getLargeRangeLogTicks cfg) 1
  else
    let startDecade := (cfg.startYear.fdiv 10) * 10
    let endDecade := (ceilDivInt cfg.endYear 10) * 10
    let count := ((endDecade - startDecade) / 10 + 1).toNat
    let ticks := (List.range count).filterMap
      (fun i => logTickFor cfg (startDecade + (i : ℤ) * 10))
    let sorted := ticks.insertionSort tickYearLE
    ensureReferenceTick cfg sorted 1

/-- Source `getAxisTicks()`: dispatch on the scale, then filter out any tick
landing exactly on year 0. -/
def getAxisTicks (cfg : TickConfig) : List Tick :=
  (if cfg.scale = Scale.linear then getLinearTicks cfg else getLogTicks cfg).filter
    (fun t => t.year ≠ 0)

instance : IsTotal Tick tickYearLE := ⟨fun a b => Int.le_total a.year b.year⟩

instance : IsTrans Tick tickYearLE := ⟨fun _ _ _ hab hbc => le_trans hab hbc⟩

/-! ## Stacked-area band geometry

Embeds the vertical-slice geometry of `drawGDPBlocsBand` in the
visualization module: visible-sample selection with the synthetic
end-of-range sample, the cumulative stacking of bloc shares, and the top
and bottom edges of each bloc's polygon.  Shares are ℚ. -/

/-- One sample of a bloc's share series (`{ year, gdpPercent }`). -/
structure GDPDataPoint where
  year : ℤ
  gdpPercent : ℚ
deriving DecidableEq, Repr

/-- The processed GDP data handed to `drawGDPBlocsBand`: the ordered bloc
list and, per bloc name, its share series (all series sampled at the same
years, in the same order). -/
structure GDPData where
  blocList : List String
  blocs : String → List GDPDataPoint

/-- The band parameters `drawGDPBlocsBand` reads. -/
structure GDPBandConfig where
  tsStartYear : ℤ
  tsEndYear : ℤ
  startY : ℚ
  bandHeight : ℚ

/-- Source `allDataPoints = blocs[blocList[0]]`: the years come from the first
bloc's series. -/
def allDataPoints (g : GDPData) : List GDPDataPoint := g.blocs g.blocList.headI

/-- Source `visibleDataPoints`: samples within the visible range
(`startYear ≤ year < endYear`), extended — when non-empty — by one
synthetic sample at `endYear + 1` repeating the last visible share, so
fills reach the chart's right edge. -/
def visibleDataPoints (cfg : GDPBandConfig) (g : GDPData) : List GDPDataPoint :=
  let pts := (allDataPoints g).filter
    (fun dp => decide (cfg.tsStartYear ≤ dp.year ∧ dp.year < cfg.tsEndYear))
  match pts.getLast? with
  | none => pts
  | some lastDp => pts ++ [⟨cfg.tsEndYear + 1, lastDp.gdpPercent⟩]

/-- Source `actualIndex` for a sample year: `findIndex` into the first bloc's
series, falling back to the last index for the synthetic year (JavaScript
`findIndex` returns −1 there). -/
def actualIndex (g : GDPData) (year : ℤ) : ℕ :=
  match (allDataPoints g).findIdx? (fun d => decide (d.year = year)) with
  | some i => i
  | none => (allDataPoints g).length - 1

/-- Source `blocs[blocName][actualIndex].gdpPercent`.  Out-of-range indexing,
which would throw in the source, is totalized with a zero sample. -/
def blocShareAt (g : GDPData) (blocName : String) (year : ℤ) : ℚ :=
  ((g.blocs blocName).getD (actualIndex g year) ⟨0, 0⟩).gdpPercent

/-- Source `stackedPercent`: the cumulative share of all blocs before
`blocIndex` at the sample. -/
def stackedPercent (g : GDPData) (blocIndex : ℕ) (year : ℤ) : ℚ :=
  ((g.blocList.take blocIndex).map (fun name => blocShareAt g name year)).sum

/-- Top edge of bloc `blocIndex`'s region at a sample:
`startY + bandHeight - ((stackedPercent + currentBlocGDP) * bandHeight / 100)`. -/
def blocTopY (cfg : GDPBandConfig) (g : GDPData) (blocIndex : ℕ) (year : ℤ) : ℚ :=
  cfg.startY + cfg.bandHeight -
    ((stackedPercent g blocIndex year + blocShareAt g (g.blocList.getD blocIndex "") year) *
      cfg.bandHeight / 100)

/-- Bottom edge of bloc `blocIndex`'s region at a sample:
`startY + bandHeight - (stackedPercent * bandHeight / 100)`. -/
def blocBottomY (cfg : GDPBandConfig) (g : GDPData) (blocIndex : ℕ) (year : ℤ) : ℚ :=
  cfg.startY + cfg.bandHeight - (stackedPercent g blocIndex year * cfg.bandHeight / 100)

/-- Concrete two-bloc GDP data for witnessing C9. -/
def gdpW : GDPData :=
  ⟨["A", "B"], fun n =>
    if n = "A" then [⟨1900, 30⟩, ⟨1950, 40⟩]
    else if n = "B" then [⟨1900, 20⟩, ⟨1950, 10⟩] else []⟩

/-- Concrete band parameters for witnessing C9. -/
def gdpCfgW : GDPBandConfig := ⟨1900, 2000, 0, 100⟩

/-! ## People/lifespan band placement

Embeds `drawPeopleBand` of the visualization module: visibility filtering,
the priority/effective-end ordering, the general greedy downward placement
loop (with its 50-iteration safety counter and height budget), the
presidents-band strict alternating two-line layout, and the
color-assignment pass.  The `TimeScale` dependency enters only through the
`yearToX` pixel mapping carried in the band configuration.  All pixel
coordinates are ℚ. -/

/-- An RGB color.  Source colors are hex strings such as `"#e74c3c"`; the
embedding carries the three parsed channels. -/
structure Color where
  r : ℕ
  g : ℕ
  b : ℕ
deriving DecidableEq, Repr, Inhabited

/-- Source `colorDistance(color1, color2)` parses both hex strings and
returns the Euclidean RGB distance (`Math.sqrt` of this sum of squares).
The embedding returns the squared distance: the square root is strictly
monotone, so every comparison of distances made by the color chooser
agrees with the comparison of the squared distances. -/
def colorDistanceSq (c1 c2 : Color) : ℚ :=
  ((c1.r : ℚ) - c2.r) ^ 2 + ((c1.g : ℚ) - c2.g) ^ 2 + ((c1.b : ℚ) - c2.b) ^ 2

/-- The 20-entry palette `colors` of `drawPeopleBand`, parsed from its hex
literals (in order: #e74c3c, #1abc9c, #f39c12, #3498db, #2ecc71, #e84393,
#d4af37, #9b59b6, #16a085, #e67e22, #2980b9, #27ae60, #c0392b, #00b894,
#d35400, #6c5ce7, #8e44ad, #95a5a6, #34495e, #7f8c8d). -/
def colors : List Color :=
  [⟨231, 76, 60⟩, ⟨26, 188, 156⟩, ⟨243, 156, 18⟩, ⟨52, 152, 219⟩, ⟨46, 204, 113⟩,
   ⟨232, 67, 147⟩, ⟨212, 175, 55⟩, ⟨155, 89, 182⟩, ⟨22, 160, 133⟩, ⟨230, 126, 34⟩,
   ⟨41, 128, 185⟩, ⟨39, 174, 96⟩, ⟨192, 57, 43⟩, ⟨0, 184, 148⟩, ⟨211, 84, 0⟩,
   ⟨108, 92, 231⟩, ⟨142, 68, 173⟩, ⟨149, 165, 166⟩, ⟨52, 73, 94⟩, ⟨127, 140, 141⟩]

/-- One event/person record as the loader builds it (`startTimestamp` and
`endTimestamp` are the integer years; `endYear`, `displayYear` and
`endTimestamp` are nullable).  `personColor` is the derived field the
renderer writes onto the record. -/
structure Person where
  name : String
  startYear : ℤ
  endYear : Option ℤ
  displayYear : Option ℤ
  priority : ℤ
  startTimestamp : ℤ
  endTimestamp : Option ℤ
  color : Option Color
  personColor : Option Color
deriving DecidableEq, Repr, Inhabited

/-- One entry of `placedItems`. -/
structure PlacedItem where
  person : Person
  lineY : ℚ
  startX : ℚ
  endX : ℚ
  textX : ℚ
  textWidth : ℚ
deriving DecidableEq, Repr, Inhabited

/-- JavaScript `a || b` on a nullable number: `b` when `a` is null,
undefined or `0` (all falsy), otherwise the value of `a`. -/
def jsOrInt : Option ℤ → ℤ → ℤ
  | none, d => d
  | some v, d => if v = 0 then d else v

/-- The parameters `drawPeopleBand` reads: the `yearToX` pixel mapping of
the current time scale with its year bounds, the module configuration's
`startYear` (used for the one-year pixel width) and left padding, the band
geometry (`baseY`, `bandY`, `maxHeight`), and the two band-kind flags. -/
structure BandConfig where
  yearToX : ℤ → ℚ
  tsStartYear : ℤ
  tsEndYear : ℤ
  cfgStartYear : ℤ
  paddingLeft : ℚ
  baseY : ℚ
  bandY : ℚ
  maxHeight : ℚ
  isPeopleBand : Bool
  isPresidentsBand : Bool

/-- Constant `lineGap = 6`: minimum gap between timeline lines. -/
def lineGap : ℚ := 6

/-- Constant `textGap = 20`: minimum horizontal gap between labels. -/
def textGap : ℚ := 20

/-- Constant `charWidth = 6.5`: estimated character width. -/
def charWidth : ℚ := 6.5

/-- Constant `fontSize = 12`. -/
def fontSize : ℚ := 12

/-- Constant `textHeight = fontSize + 4`. -/
def textHeight : ℚ := fontSize + 4

/-- Constant `verticalTextOverlapThreshold = 18`: vertical proximity under
which two labels can collide. -/
def verticalTextOverlapThreshold : ℚ := 18

/-- Source `minTimelineGap`: the pixel width of one calendar year,
`Math.abs(yearToX(config.startYear + 1) - yearToX(config.startYear))`. -/
def minTimelineGap (cfg : BandConfig) : ℚ :=
  |cfg.yearToX (cfg.cfgStartYear + 1) - cfg.yearToX cfg.cfgStartYear|

/-- The visibility filter of `drawPeopleBand`: an event is kept when its
range (open end extended to the timeline end for people bands, collapsed
to the start year otherwise, with `||`-falsiness on `endYear`) overlaps
the visible range. -/
def visiblePeople (cfg : BandConfig) (events : List Person) : List Person :=
  events.filter (fun event =>
    let startYear := event.startYear
    let endYear := jsOrInt event.endYear (if cfg.isPeopleBand then cfg.tsEndYear else startYear)
    decide (cfg.tsStartYear ≤ endYear ∧ startYear ≤ cfg.tsEndYear))

/-- The effective end used for ordering: `a.endTimestamp || a.startTimestamp`
(JavaScript `||`, so a zero end timestamp also falls back to the start). -/
def effectiveEnd (p : Person) : ℤ := jsOrInt p.endTimestamp p.startTimestamp

/-- Comparator of the within-priority sort: effective end descending. -/
def effEndGE (a b : Person) : Prop := effectiveEnd b ≤ effectiveEnd a

instance : DecidableRel effEndGE := fun a b =>
  inferInstanceAs (Decidable (effectiveEnd b ≤ effectiveEnd a))

instance : IsTotal Person effEndGE := ⟨fun a b => Int.le_total (effectiveEnd b) (effectiveEnd a)⟩

instance : IsTrans Person effEndGE := ⟨fun _ _ _ h1 h2 => le_trans h2 h1⟩

/-- The distinct priorities among the visible items in ascending order
(`Object.keys(peopleByPriority).map(Number).sort((a, b) => a - b)`). -/
def sortedPriorities (cfg : BandConfig) (events : List Person) : List ℤ :=
  (((visiblePeople cfg events).map Person.priority).dedup).insertionSort (· ≤ ·)

/-- The ordering pass of `drawPeopleBand`: group the visible items by
priority, stably sort each group by effective end descending, and
concatenate the groups in ascending priority order. -/
def sortedPeople (cfg : BandConfig) (events : List Person) : List Person :=
  (sortedPriorities cfg events).flatMap (fun pr =>
    ((visiblePeople cfg events).filter (fun p => decide (p.priority = pr))).insertionSort
      effEndGE)

/-- Display year of an item: `person.displayYear || person.startYear`. -/
def displayYearOf (person : Person) : ℤ := jsOrInt person.displayYear person.startYear

/-- Source `actualStartX = yearToX(displayYear)` (general branch). -/
def actualStartX (cfg : BandConfig) (person : Person) : ℚ :=
  cfg.yearToX (displayYearOf person)

/-- Source `actualEndX` of the general branch: `yearToX(endYear)` for a
truthy end year within range; for a falsy end year (null or 0) the line is
extended to the timeline end on people bands and collapsed to the start
otherwise; a truthy end year beyond the range leaves `actualStartX`. -/
def actualEndX (cfg : BandConfig) (person : Person) : ℚ :=
  match person.endYear with
  | some e =>
      if e ≠ 0 ∧ e ≤ cfg.tsEndYear then cfg.yearToX e
      else if e ≠ 0 then actualStartX cfg person
      else if cfg.isPeopleBand then cfg.yearToX cfg.tsEndYear else actualStartX cfg person
  | none => if cfg.isPeopleBand then cfg.yearToX cfg.tsEndYear else actualStartX cfg person

/-- Source `startX`: the line start clamped to the left padding. -/
def startXOf (cfg : BandConfig) (person : Person) : ℚ :=
  max (actualStartX cfg person) cfg.paddingLeft

/-- Source `endX`: the line end clamped to the timeline end. -/
def endXOf (cfg : BandConfig) (person : Person) : ℚ :=
  min (actualEndX cfg person) (cfg.yearToX cfg.tsEndYear)

/-- Source `textWidth = person.name.length * charWidth`. -/
def textWidthOf (person : Person) : ℚ := (person.name.length : ℚ) * charWidth

/-- Source `maxTextX`: the rightmost label start (within the item's own
line for people bands, up to the chart's right edge otherwise). -/
def maxTextXOf (cfg : BandConfig) (person : Person) : ℚ :=
  if cfg.isPeopleBand then
    startXOf cfg person + (endXOf cfg person - startXOf cfg person) - textWidthOf person
  else cfg.yearToX cfg.tsEndYear - textWidthOf person

/-- Source `textMaxStartX`: the bound of the label start scan. -/
def textMaxStartXOf (cfg : BandConfig) (person : Person) : ℚ :=
  if cfg.isPeopleBand then maxTextXOf cfg person
  else min (endXOf cfg person) (maxTextXOf cfg person)

/-- Step-1 check of the placement loop: a previously placed item whose
time range overlaps horizontally (one-year separation included on both
sides) and whose line is within `lineGap` vertically. -/
def lineOverlapCheck (cfg : BandConfig) (startX endX lineY : ℚ) (placed : PlacedItem) : Bool :=
  decide ((startX < placed.endX + minTimelineGap cfg ∧
      endX + minTimelineGap cfg > placed.startX) ∧ |lineY - placed.lineY| < lineGap)

/-- The inner `while` of step 2: scan rightward for a label start free of
overlap with vertically-near labels, jumping past the first colliding
neighbor.  Each jump permanently passes one neighbor's right edge, so
`nearby.length + 1` rounds of fuel reproduce the loop exactly. -/
def textScan (nearby : List PlacedItem) (textWidth textMaxStartX : ℚ) :
    ℕ → ℚ → Bool × ℚ
  | 0, textX => (false, textX)
  | fuel + 1, textX =>
    if textMaxStartX < textX then (false, textX)
    else
      match nearby.find? (fun placed =>
          decide (textX < placed.textX + placed.textWidth + textGap ∧
            placed.textX < textX + textWidth + textGap)) with
      | none => (true, textX)
      | some placed =>
          textScan nearby textWidth textMaxStartX fuel (placed.textX + placed.textWidth + textGap)

/-- Source `nearbyItems`: the placed items vertically close enough for
label overlap at the candidate line. -/
def nearbyItemsOf (placedItems : List PlacedItem) (lineY : ℚ) : List PlacedItem :=
  placedItems.filter (fun p => decide (|lineY - p.lineY| < verticalTextOverlapThreshold))

/-- The placement `while (!foundPosition && safetyCounter < 50)` loop: at
each round, abort when the height budget is exceeded; bump the candidate
line below the first colliding placed line and rescan; otherwise scan for
a label position among vertically-near items, and on failure move one
`lineGap` down.  Fuel 50 models the safety counter. -/
def placeLoop (cfg : BandConfig) (placedItems : List PlacedItem)
    (startX endX textWidth textMaxStartX : ℚ) : ℕ → ℚ → Option (ℚ × ℚ)
  | 0, _ => none
  | fuel + 1, lineY =>
    if cfg.maxHeight < lineY + textHeight - cfg.bandY then none
    else
      match placedItems.find? (lineOverlapCheck cfg startX endX lineY) with
      | some placed =>
          placeLoop cfg placedItems startX endX textWidth textMaxStartX fuel
            (placed.lineY + lineGap)
      | none =>
          match textScan (nearbyItemsOf placedItems lineY) textWidth textMaxStartX
              ((nearbyItemsOf placedItems lineY).length + 1) startX with
          | (true, textX) => some (lineY, textX)
          | (false, _) =>
              placeLoop cfg placedItems startX endX textWidth textMaxStartX fuel (lineY + lineGap)

/-- Placement of one item of the general branch: run the loop from
`baseY`; on success clamp the label start to `maxTextX` and record the
placement; on failure place nothing. -/
def placePerson (cfg : BandConfig) (placedItems : List PlacedItem) (person : Person) :
    Option PlacedItem :=
  match placeLoop cfg placedItems (startXOf cfg person) (endXOf cfg person)
      (textWidthOf person) (textMaxStartXOf cfg person) 50 cfg.baseY with
  | none => none
  | some (lineY, textX) =>
      some { person := person, lineY := lineY, startX := startXOf cfg person,
             endX := endXOf cfg person,
             textX := if textX > maxTextXOf cfg person then maxTextXOf cfg person else textX,
             textWidth := textWidthOf person }

/-- The general branch's `forEach`: place each item against the already
placed ones, skipping items whose placement fails. -/
def placeAllGeneralAux (cfg : BandConfig) : List PlacedItem → List Person → List PlacedItem
  | placed, [] => placed
  | placed, person :: rest =>
    match placePerson cfg placed person with
    | none => placeAllGeneralAux cfg placed rest
    | some item => placeAllGeneralAux cfg (placed ++ [item]) rest

/-- General placement over a band's ordered items. -/
def placeAllGeneral (cfg : BandConfig) (people : List Person) : List PlacedItem :=
  placeAllGeneralAux cfg [] people

/-- Comparator of the presidents-band chronological sort. -/
def startTsLE (a b : Person) : Prop := a.startTimestamp ≤ b.startTimestamp

instance : DecidableRel startTsLE := fun a b =>
  inferInstanceAs (Decidable (a.startTimestamp ≤ b.startTimestamp))

instance : IsTotal Person startTsLE := ⟨fun a b => Int.le_total _ _⟩

instance : IsTrans Person startTsLE := ⟨fun _ _ _ h1 h2 => le_trans h1 h2⟩

/-- Source `actualEndX` of the presidents branch (same truthiness cases,
but a falsy end year always extends to the timeline end). -/
def presidentsActualEndX (cfg : BandConfig) (person : Person) : ℚ :=
  match person.endYear with
  | some e =>
      if e ≠ 0 ∧ e ≤ cfg.tsEndYear then cfg.yearToX e
      else if e ≠ 0 then cfg.yearToX person.startYear
      else cfg.yearToX cfg.tsEndYear
  | none => cfg.yearToX cfg.tsEndYear

/-- The presidents-band `forEach((person, index))`: every item is placed,
alternating between `line1Y = baseY` (even index) and
`line2Y = baseY + lineGap * 3` (odd index), with the label at the line
start and the color forced color or palette color by index. -/
def placePresidentsAux (cfg : BandConfig) : ℕ → List Person → List PlacedItem
  | _, [] => []
  | index, person :: rest =>
    let aStartX := cfg.yearToX person.startYear
    let startX := max aStartX cfg.paddingLeft
    let endX := min (presidentsActualEndX cfg person) (cfg.yearToX cfg.tsEndYear)
    let lineY := if index % 2 = 0 then cfg.baseY else cfg.baseY + lineGap * 3
    let personColor := person.color.getD (colors.getD (index % colors.length) default)
    { person := { person with personColor := some personColor }, lineY := lineY,
      startX := startX, endX := endX, textX := startX,
      textWidth := textWidthOf person } :: placePresidentsAux cfg (index + 1) rest

/-- The presidents branch: re-sort chronologically by start timestamp,
then lay out alternately with no collision check, retry bound or height
budget. -/
def placePresidents (cfg : BandConfig) (people : List Person) : List PlacedItem :=
  placePresidentsAux cfg 0 (people.insertionSort startTsLE)

/-- Comparator of the final vertical ordering of placed items. -/
def lineYLE (a b : PlacedItem) : Prop := a.lineY ≤ b.lineY

instance : DecidableRel lineYLE := fun a b => inferInstanceAs (Decidable (a.lineY ≤ b.lineY))

instance : IsTotal PlacedItem lineYLE := ⟨fun a b => le_total a.lineY b.lineY⟩

instance : IsTrans PlacedItem lineYLE := ⟨fun _ _ _ h1 h2 => le_trans h1 h2⟩

/-- The "visually near" set of the color pass: the colors of up to the 3
immediately preceding placed items (latest first) whose line is within
50px vertically of the current item. -/
def recentColorsOf (acc : List PlacedItem) (item : PlacedItem) : List Color :=
  let idx := acc.length
  let lookbackCount := min 3 idx
  (List.range lookbackCount).filterMap (fun k =>
    match acc.get? (idx - 1 - k) with
    | some prevItem =>
        if |item.lineY - prevItem.lineY| < 50 then prevItem.person.personColor else none
    | none => none)

/-- Source `minDistance`, initialized to `Infinity` (the top element) and
folded with `Math.min` over the near set. -/
def minDistanceTo (cand : Color) (recent : List Color) : WithTop ℚ :=
  recent.foldl (fun m rc => min m ((colorDistanceSq cand rc : ℚ) : WithTop ℚ)) ⊤

/-- The candidate loop state of the color pass: fold the palette keeping
the first candidate whose minimum distance exceeds the best so far
(`if (minDistance > maxMinDistance)`). -/
def bestColorFold (recent : List Color) (l : List Color) (st : Color × WithTop ℚ) :
    Color × WithTop ℚ :=
  l.foldl (fun best cand =>
    if best.2 < minDistanceTo cand recent then (cand, minDistanceTo cand recent) else best) st

/-- The candidate scan of the color pass: start from `colors[0]` with
`maxMinDistance = -1`; keep the first candidate maximizing the minimum
distance to the near set; an empty near set short-circuits to
`colors[0]`. -/
def chooseBestColor (recent : List Color) : Color :=
  if recent.isEmpty then colors.headI
  else (bestColorFold recent colors (colors.headI, ((-1 : ℚ) : WithTop ℚ))).1

/-- One step of the color pass over the placed items in final vertical
order: a forced color is kept unconditionally; the first item (or any item
with an empty near set) gets `colors[0]`; otherwise the min-max choice.
The chosen color is written onto the person record (`personColor`). -/
def assignColorsStep (acc : List PlacedItem) (item : PlacedItem) : PlacedItem :=
  match item.person.color with
  | some c => { item with person := { item.person with personColor := some c } }
  | none =>
      let chosen := if acc.length = 0 then colors.headI
        else chooseBestColor (recentColorsOf acc item)
      { item with person := { item.person with personColor := some chosen } }

/-- The color-assignment `forEach`, threading the already-processed
prefix (whose `personColor` fields have been written) past each item. -/
def assignColorsAux : List PlacedItem → List PlacedItem → List PlacedItem
  | acc, [] => acc
  | acc, item :: rest => assignColorsAux (acc ++ [assignColorsStep acc item]) rest

/-- The color-assignment pass (general bands only). -/
def assignColors (items : List PlacedItem) : List PlacedItem := assignColorsAux [] items

/-- Embeds `drawPeopleBand`: order the visible items, then either run the
presidents-band alternating layout, or the general placement followed by
the vertical sort and the color pass. -/
def drawPeopleBand (cfg : BandConfig) (events : List Person) : List PlacedItem :=
  if cfg.isPresidentsBand then placePresidents cfg (sortedPeople cfg events)
  else assignColors ((placeAllGeneral cfg (sortedPeople cfg events)).insertionSort lineYLE)

/-- Horizontal overlap of two placed items' pixel time ranges with the
one-year minimum separation included on both sides — the overlap notion of
the placement loop's step-1 check (symmetric in the two items). -/
def overlapsH (cfg : BandConfig) (p q : PlacedItem) : Prop :=
  p.startX < q.endX + minTimelineGap cfg ∧ q.startX < p.endX + minTimelineGap cfg

/-- The no-line-collision relation of the claim: horizontally overlapping
placed items (one-year separation included) sit at least `lineGap` apart
vertically. -/
def noCollide (cfg : BandConfig) (p q : PlacedItem) : Prop :=
  overlapsH cfg p q → lineGap ≤ |p.lineY - q.lineY|

/-- Concrete general-band configuration (identity-like pixel mapping,
ample height) used by witnesses. -/
def cfgC1W : BandConfig :=
  { yearToX := fun y => (y : ℚ), tsStartYear := 1900, tsEndYear := 2000, cfgStartYear := 1900,
    paddingLeft := 0, baseY := 50, bandY := 0, maxHeight := 999,
    isPeopleBand := false, isPresidentsBand := false }

/-- A concrete point event used by witnesses. -/
def personC1A : Person := ⟨"AAAAA", 1950, none, none, 1, 1950, none, none, none⟩

/-- A second concrete point event at the same year. -/
def personC1B : Person := ⟨"BBBBB", 1950, none, none, 1, 1950, none, none, none⟩

/-- Concrete general-band configuration with a zero height budget, so
every placement fails. -/
def cfgC2W : BandConfig :=
  { yearToX := fun y => (y : ℚ), tsStartYear := 1900, tsEndYear := 2000, cfgStartYear := 1900,
    paddingLeft := 0, baseY := 0, bandY := 0, maxHeight := 0,
    isPeopleBand := true, isPresidentsBand := false }

/-- Modelled from the spec's words, for comparison with the code: the
claim's effective end is the end timestamp, with the start timestamp used
only when the end is absent. -/
def claimEffectiveEnd (p : Person) : ℤ := p.endTimestamp.getD p.startTimestamp

/-- Concrete people-band configuration for the C3 counterexample. -/
def cfgC3 : BandConfig :=
  { yearToX := fun y => (y : ℚ), tsStartYear := -100, tsEndYear := 100, cfgStartYear := -100,
    paddingLeft := 0, baseY := 0, bandY := 0, maxHeight := 999,
    isPeopleBand := true, isPresidentsBand := false }

/-- An item ending in year 0 (end timestamp 0, falsy in JavaScript). -/
def personC3A : Person := ⟨"A", -30, some 0, none, 1, -30, some 0, none, none⟩

/-- An item of the same priority ending in year −10. -/
def personC3B : Person := ⟨"B", -20, some (-10), none, 1, -20, some (-10), none, none⟩

/-- Concrete presidents-band configuration for the C10 witness. -/
def cfgC10W : BandConfig :=
  { yearToX := fun y => (y : ℚ), tsStartYear := 1900, tsEndYear := 2000, cfgStartYear := 1900,
    paddingLeft := 0, baseY := 50, bandY := 0, maxHeight := 999,
    isPeopleBand := true, isPresidentsBand := true }

/-- Two concrete placed items (100px apart vertically) for the C6
witness. -/
def itemsC6W : List PlacedItem :=
  [⟨personC1A, 50, 1950, 1950, 1950, 13⟩, ⟨personC1B, 150, 1950, 1950, 1983, 13⟩]

/-- Concrete people-band configuration for the C7 counterexample and
witness. -/
def cfgC7 : BandConfig :=
  { yearToX := fun y => (y : ℚ), tsStartYear := 1900, tsEndYear := 2000, cfgStartYear := 1900,
    paddingLeft := 0, baseY := 50, bandY := 0, maxHeight := 999,
    isPeopleBand := true, isPresidentsBand := false }

/-- A concrete lifespan item with no forced color and no color assigned
yet. -/
def personC7 : Person := ⟨"AB", 1900, some 1990, none, 1, 1900, some 1990, none, none⟩

/-! ## Theorems -/

theorem TimeScale.calculateLog_eq_logb (ts : TimeScale) (value : ℝ) :
    ts.calculateLog value = Real.logb ts.base value := rfl

theorem TimeScale.maxLog_sub_minLog_pos (ts : TimeScale)
    (hb : 1 < ts.base) (hse : ts.startYear < ts.endYear) (hr : ts.endYear < ts.referenceYear) :
    0 < ts.maxLogValue - ts.minLogValue := by
  have h1 : (0 : ℝ) < ts.referenceYear - ts.endYear + TimeScale.offset := by
    unfold TimeScale.offset; linarith
  have h2 : ts.referenceYear - ts.endYear + TimeScale.offset <
      ts.referenceYear - ts.startYear + TimeScale.offset := by linarith
  have := Real.logb_lt_logb hb h1 h2
  rw [TimeScale.maxLogValue, TimeScale.minLogValue, TimeScale.calculateLog_eq_logb,
    TimeScale.calculateLog_eq_logb]
  linarith

/-- C4: for every year in `[startYear, endYear]`, in both scale modes
(logarithmic requiring `base > 1` and `referenceYear > endYear`),
`xToYear (yearToX y) = y`, given `startYear < endYear` and
`chartWidth > 0`.  The claim's "within floating-point tolerance" holds
exactly in the real-number model of the arithmetic. -/
theorem C4_round_trip (ts : TimeScale) (y : ℝ) (hv : ts.Valid)
    (hy1 : ts.startYear ≤ y) (hy2 : y ≤ ts.endYear) :
    ts.xToYear (ts.yearToX y) = y := by
  obtain ⟨hse, hw, hlog⟩ := hv
  have hwne : ts.chartWidth ≠ 0 := ne_of_gt hw
  by_cases hsc : ts.scale = Scale.linear
  · have hrange : ts.endYear - ts.startYear ≠ 0 := by linarith [hse]
    rw [TimeScale.yearToX, TimeScale.xToYear, if_pos hsc, if_pos hsc, TimeScale.linearYearToX]
    field_simp
    ring
  · obtain ⟨hb, hr⟩ := hlog (by cases h : ts.scale <;> simp_all)
    have hdiff := ts.maxLog_sub_minLog_pos hb hse hr
    have hdne : ts.maxLogValue - ts.minLogValue ≠ 0 := ne_of_gt hdiff
    rw [TimeScale.yearToX, TimeScale.xToYear, if_neg hsc, if_neg hsc,
      TimeScale.logarithmicYearToX]
    simp only
    have hnorm : (ts.paddingLeft +
        (ts.maxLogValue - ts.calculateLog (ts.referenceYear - y + TimeScale.offset)) /
          (ts.maxLogValue - ts.minLogValue) * ts.chartWidth - ts.paddingLeft) / ts.chartWidth =
        (ts.maxLogValue - ts.calculateLog (ts.referenceYear - y + TimeScale.offset)) /
          (ts.maxLogValue - ts.minLogValue) := by
      field_simp
      ring
    rw [hnorm]
    have hlogv : ts.maxLogValue -
        (ts.maxLogValue - ts.calculateLog (ts.referenceYear - y + TimeScale.offset)) /
          (ts.maxLogValue - ts.minLogValue) * (ts.maxLogValue - ts.minLogValue) =
        ts.calculateLog (ts.referenceYear - y + TimeScale.offset) := by
      field_simp
    rw [hlogv, TimeScale.calculateLog_eq_logb]
    have hpos : (0 : ℝ) < ts.referenceYear - y + TimeScale.offset := by
      unfold TimeScale.offset; linarith
    rw [Real.rpow_logb (by linarith : (0:ℝ) < ts.base) (by linarith : ts.base ≠ 1) hpos]
    unfold TimeScale.offset
    ring

/-- C4 witness: the round trip at a concrete linear configuration. -/
theorem C4_round_trip_witness :
    (TimeScale.mk Scale.linear 1900 2000 2500 2 140 100).Valid ∧
      (1900 : ℝ) ≤ 1950 ∧ (1950 : ℝ) ≤ 2000 ∧
      (TimeScale.mk Scale.linear 1900 2000 2500 2 140 100).xToYear
        ((TimeScale.mk Scale.linear 1900 2000 2500 2 140 100).yearToX 1950) = 1950 := by
  refine ⟨⟨by norm_num, by norm_num, ?_⟩, by norm_num, by norm_num, ?_⟩
  · intro h; simp at h
  · exact C4_round_trip _ _ ⟨by norm_num, by norm_num, by intro h; simp at h⟩
      (by norm_num) (by norm_num)

/-- C5: `yearToX` is strictly increasing on `[startYear, endYear]` in both
modes, under the preconditions `startYear < endYear`, `chartWidth > 0`,
and (for logarithmic mode) `base > 1` and `referenceYear > endYear`. -/
theorem C5_monotone (ts : TimeScale) (y1 y2 : ℝ) (hv : ts.Valid)
    (hy1 : ts.startYear ≤ y1) (h12 : y1 < y2) (hy2 : y2 ≤ ts.endYear) :
    ts.yearToX y1 < ts.yearToX y2 := by
  obtain ⟨hse, hw, hlog⟩ := hv
  by_cases hsc : ts.scale = Scale.linear
  · rw [TimeScale.yearToX, TimeScale.yearToX, if_pos hsc, if_pos hsc,
      TimeScale.linearYearToX, TimeScale.linearYearToX]
    have hrange : 0 < ts.endYear - ts.startYear := by linarith
    have : (y1 - ts.startYear) / (ts.endYear - ts.startYear) <
        (y2 - ts.startYear) / (ts.endYear - ts.startYear) := by
      apply div_lt_div_of_pos_right _ hrange
      linarith
    nlinarith
  · obtain ⟨hb, hr⟩ := hlog (by cases h : ts.scale <;> simp_all)
    have hdiff := ts.maxLog_sub_minLog_pos hb hse hr
    rw [TimeScale.yearToX, TimeScale.yearToX, if_neg hsc, if_neg hsc,
      TimeScale.logarithmicYearToX, TimeScale.logarithmicYearToX]
    have hpos1 : (0 : ℝ) < ts.referenceYear - y2 + TimeScale.offset := by
      unfold TimeScale.offset; linarith
    have hlt : ts.referenceYear - y2 + TimeScale.offset <
        ts.referenceYear - y1 + TimeScale.offset := by linarith
    have hmono := Real.logb_lt_logb hb hpos1 hlt
    rw [TimeScale.calculateLog_eq_logb, TimeScale.calculateLog_eq_logb] at *
    have hnum : ts.maxLogValue - Real.logb ts.base (ts.referenceYear - y1 + TimeScale.offset) <
        ts.maxLogValue - Real.logb ts.base (ts.referenceYear - y2 + TimeScale.offset) := by
      linarith
    have hfrac : (ts.maxLogValue - Real.logb ts.base (ts.referenceYear - y1 + TimeScale.offset)) /
        (ts.maxLogValue - ts.minLogValue) <
        (ts.maxLogValue - Real.logb ts.base (ts.referenceYear - y2 + TimeScale.offset)) /
        (ts.maxLogValue - ts.minLogValue) :=
      div_lt_div_of_pos_right hnum hdiff
    nlinarith

/-- C5 witness: strict monotonicity at a concrete logarithmic
configuration (reference year 2500, base 2, range −20000…2025). -/
theorem C5_monotone_witness :
    (TimeScale.mk Scale.logarithmic (-20000) 2025 2500 2 140 1000).Valid ∧
      (-20000 : ℝ) ≤ 1000 ∧ (1000 : ℝ) < 2025 ∧ (2025 : ℝ) ≤ 2025 ∧
      (TimeScale.mk Scale.logarithmic (-20000) 2025 2500 2 140 1000).yearToX 1000 <
        (TimeScale.mk Scale.logarithmic (-20000) 2025 2500 2 140 1000).yearToX 2025 := by
  refine ⟨⟨by norm_num, by norm_num, fun _ => ⟨by norm_num, by norm_num⟩⟩,
    by norm_num, by norm_num, by norm_num, ?_⟩
  exact C5_monotone _ _ _ ⟨by norm_num, by norm_num, fun _ => ⟨by norm_num, by norm_num⟩⟩
    (by norm_num) (by norm_num) (by norm_num)

theorem sorted_insertionSort_ticks (l : List Tick) :
    List.Sorted tickYearLE (l.insertionSort tickYearLE) :=
  List.sorted_insertionSort tickYearLE l

/-- Lemma: `ensureReferenceTick` either leaves the list unchanged or appends the
reference tick at the end. -/
theorem ensureReferenceTick_cases (cfg : TickConfig) (ticks : List Tick) (year : ℤ) :
    ensureReferenceTick cfg ticks year = ticks ∨
      ensureReferenceTick cfg ticks year =
        ticks ++ [⟨year, true, true, 12, 1.5, "#b5b5b5", 1.0, some "bold"⟩] := by
  unfold ensureReferenceTick
  split
  · exact Or.inl rfl
  · split
    · exact Or.inl rfl
    · exact Or.inr rfl

/-- After `ensureReferenceTick _ _ 1` and the year-0 filter, a sorted tick
list is still sorted except possibly for a final appended year-1 tick. -/
theorem filter_ensure_sorted_cases (cfg : TickConfig) (ticks : List Tick)
    (hs : List.Sorted tickYearLE ticks) :
    List.Sorted tickYearLE ((ensureReferenceTick cfg ticks 1).filter (fun t => t.year ≠ 0)) ∨
      (List.Sorted tickYearLE
          (((ensureReferenceTick cfg ticks 1).filter (fun t => t.year ≠ 0)).dropLast) ∧
        (((ensureReferenceTick cfg ticks 1).filter (fun t => t.year ≠ 0)).getLast?.map
          Tick.year = some 1)) := by
  rcases ensureReferenceTick_cases cfg ticks 1 with h | h <;> rw [h]
  · exact Or.inl (List.Pairwise.filter _ hs)
  · right
    rw [List.filter_append]
    have hone : (List.filter (fun t => decide (t.year ≠ 0))
        [(⟨1, true, true, 12, 1.5, "#b5b5b5", 1.0, some "bold"⟩ : Tick)]) =
        [⟨1, true, true, 12, 1.5, "#b5b5b5", 1.0, some "bold"⟩] := by
      norm_num [List.filter]
    rw [hone, List.dropLast_concat, List.getLast?_concat]
    exact ⟨List.Pairwise.filter _ hs, rfl⟩

/-- Every tick produced by `linearTickFor` carries the loop year. -/
theorem linearTickFor_year (y : ℤ) (t : Tick) (h : t ∈ linearTickFor y) : t.year = y := by
  unfold linearTickFor at h
  rw [Option.mem_def] at h
  split at h
  · injection h with h2; subst h2; rfl
  · split at h
    · injection h with h2; subst h2; rfl
    · split at h
      · exact Option.noConfusion h
      · injection h with h2; subst h2; rfl

/-- The per-year loop of `getLinearTicks` produces ticks in ascending year
order (each produced tick carries the loop year). -/
theorem sorted_linear_loop (lo hi : ℤ) :
    List.Sorted tickYearLE ((intRange lo hi).filterMap linearTickFor) := by
  rw [List.Sorted, List.pairwise_filterMap]
  have hyrs : List.Pairwise (fun a b => (a : ℤ) < b) (intRange lo hi) := by
    rw [intRange, List.pairwise_map]
    refine (List.pairwise_lt_range _).imp ?_
    intro a b hab
    have hcast : (a : ℤ) < b := Int.ofNat_lt.mpr hab
    omega
  refine hyrs.imp ?_
  intro y1 y2 hlt t1 ht1 t2 ht2
  unfold tickYearLE
  rw [linearTickFor_year y1 t1 ht1, linearTickFor_year y2 t2 ht2]
  exact le_of_lt hlt

/-- C8, corrected: the list returned by `getAxisTicks()` is sorted
ascending by year except that the year-1 reference tick force-appended by
`ensureReferenceTick` may stand at the end out of order; equivalently,
either the whole list is sorted, or the list without its last element is
sorted and that last element is the year-1 tick. -/
theorem C8_amended_ticks_sorted (cfg : TickConfig) :
    List.Sorted tickYearLE (getAxisTicks cfg) ∨
      (List.Sorted tickYearLE (getAxisTicks cfg).dropLast ∧
        ((getAxisTicks cfg).getLast?.map Tick.year = some 1)) := by
  unfold getAxisTicks
  by_cases hsc : cfg.scale = Scale.linear
  · rw [if_pos hsc]
    unfold getLinearTicks
    split
    · unfold getLargeRangeLinearTicks
      exact Or.inl (List.Pairwise.filter _ (sorted_insertionSort_ticks _))
    · exact filter_ensure_sorted_cases cfg _ (sorted_linear_loop _ _)
  · rw [if_neg hsc]
    unfold getLogTicks
    split
    · exact filter_ensure_sorted_cases cfg _
        (by unfold getLargeRangeLogTicks; exact sorted_insertionSort_ticks _)
    · exact filter_ensure_sorted_cases cfg _ (sorted_insertionSort_ticks _)

/-- C8, counterexample: with a linear scale over 1…4 the generated list is
years `[2, 4, 1]` — the forced year-1 reference tick is appended after
sorting, so the output of `getAxisTicks()` is not ordered by year. -/
theorem C8_counterexample_unsorted :
    ¬ List.Sorted tickYearLE (getAxisTicks ⟨Scale.linear, 1, 4, 2500⟩) := by
  decide

/-- C9: at every sample point used for the polygons, the summed pixel
heights of all blocs' slices (bottom edge minus top edge, screen
coordinates growing downward) equal the sum of the raw shares the source
data holds at that sample, times `bandHeight / 100` — cumulative stacking
with no renormalization. -/
theorem C9_stacked_area_conservation (cfg : GDPBandConfig) (g : GDPData)
    (dp : GDPDataPoint) (hmem : dp ∈ visibleDataPoints cfg g) :
    ((List.range g.blocList.length).map
        (fun i => blocBottomY cfg g i dp.year - blocTopY cfg g i dp.year)).sum =
      ((List.range g.blocList.length).map
        (fun i => blocShareAt g (g.blocList.getD i "") dp.year)).sum *
        cfg.bandHeight / 100 := by
  have hterm : ∀ i : ℕ, blocBottomY cfg g i dp.year - blocTopY cfg g i dp.year =
      blocShareAt g (g.blocList.getD i "") dp.year * (cfg.bandHeight / 100) := by
    intro i
    unfold blocBottomY blocTopY
    ring
  rw [List.map_congr_left (fun i _ => hterm i)]
  rw [List.sum_map_mul_right, mul_div_assoc]

/-- C9 witness: conservation at the concrete 1900 sample of `gdpW`. -/
theorem C9_stacked_area_conservation_witness :
    (⟨1900, 30⟩ : GDPDataPoint) ∈ visibleDataPoints gdpCfgW gdpW ∧
      ((List.range gdpW.blocList.length).map
          (fun i => blocBottomY gdpCfgW gdpW i 1900 - blocTopY gdpCfgW gdpW i 1900)).sum =
        ((List.range gdpW.blocList.length).map
          (fun i => blocShareAt gdpW (gdpW.blocList.getD i "") 1900)).sum *
          gdpCfgW.bandHeight / 100 := by
  have hmem : (⟨1900, 30⟩ : GDPDataPoint) ∈ visibleDataPoints gdpCfgW gdpW := by
    norm_num [visibleDataPoints, allDataPoints, gdpCfgW, gdpW, List.filter, List.getLast?]
  exact ⟨hmem, C9_stacked_area_conservation gdpCfgW gdpW ⟨1900, 30⟩ hmem⟩

theorem placeLoop_no_overlap (cfg : BandConfig) (placedItems : List PlacedItem)
    (startX endX textWidth textMaxStartX : ℚ) :
    ∀ (fuel : ℕ) (lineY0 lineY textX : ℚ),
      placeLoop cfg placedItems startX endX textWidth textMaxStartX fuel lineY0 =
        some (lineY, textX) →
      ∀ p ∈ placedItems, lineOverlapCheck cfg startX endX lineY p = false := by
  intro fuel
  induction fuel with
  | zero =>
    intro lineY0 lineY textX h
    exact absurd h (by simp [placeLoop])
  | succ n ih =>
    intro lineY0 lineY textX h p hp
    rw [placeLoop] at h
    split at h
    · exact absurd h (by simp)
    · split at h
      · exact ih _ _ _ h p hp
      · rename_i hfind
        split at h
        · rename_i textX' hscan
          injection h with h2
          injection h2 with h3 h4
          subst h3
          have := List.find?_eq_none.mp hfind p hp
          simpa using this
        · exact ih _ _ _ h p hp

theorem placeLoop_height (cfg : BandConfig) (placedItems : List PlacedItem)
    (startX endX textWidth textMaxStartX : ℚ) :
    ∀ (fuel : ℕ) (lineY0 lineY textX : ℚ),
      placeLoop cfg placedItems startX endX textWidth textMaxStartX fuel lineY0 =
        some (lineY, textX) →
      lineY + textHeight - cfg.bandY ≤ cfg.maxHeight := by
  intro fuel
  induction fuel with
  | zero =>
    intro lineY0 lineY textX h
    exact absurd h (by simp [placeLoop])
  | succ n ih =>
    intro lineY0 lineY textX h
    rw [placeLoop] at h
    split at h
    · exact absurd h (by simp)
    · rename_i hheight
      split at h
      · exact ih _ _ _ h
      · split at h
        · rename_i textX' hscan
          injection h with h2
          injection h2 with h3 h4
          subst h3
          exact le_of_not_lt hheight
        · exact ih _ _ _ h

theorem placePerson_eq (cfg : BandConfig) (placed : List PlacedItem) (person : Person)
    (item : PlacedItem) (h : placePerson cfg placed person = some item) :
    item.person = person ∧ item.startX = startXOf cfg person ∧ item.endX = endXOf cfg person ∧
      (∀ p ∈ placed, lineOverlapCheck cfg item.startX item.endX item.lineY p = false) ∧
      item.lineY + textHeight - cfg.bandY ≤ cfg.maxHeight := by
  unfold placePerson at h
  split at h
  · exact absurd h (by simp)
  · rename_i lineY textX heq
    injection h with h2
    subst h2
    refine ⟨rfl, rfl, rfl, ?_, ?_⟩
    · intro p hp
      simpa using placeLoop_no_overlap cfg placed _ _ _ _ _ _ _ _ heq p hp
    · simpa using placeLoop_height cfg placed _ _ _ _ _ _ _ _ heq

theorem noCollide_symm (cfg : BandConfig) {p q : PlacedItem} (h : noCollide cfg p q) :
    noCollide cfg q p := by
  intro hov
  rw [abs_sub_comm]
  exact h ⟨hov.2, hov.1⟩

theorem noCollide_congr (cfg : BandConfig) {a a' b b' : PlacedItem}
    (ha1 : a'.lineY = a.lineY) (ha2 : a'.startX = a.startX) (ha3 : a'.endX = a.endX)
    (hb1 : b'.lineY = b.lineY) (hb2 : b'.startX = b.startX) (hb3 : b'.endX = b.endX)
    (h : noCollide cfg a b) : noCollide cfg a' b' := by
  unfold noCollide overlapsH at h ⊢
  rw [ha1, ha2, ha3, hb1, hb2, hb3]
  exact h

theorem placeAllGeneralAux_pairwise (cfg : BandConfig) :
    ∀ (people : List Person) (placed : List PlacedItem),
      placed.Pairwise (noCollide cfg) →
      (placeAllGeneralAux cfg placed people).Pairwise (noCollide cfg) := by
  intro people
  induction people with
  | nil => intro placed h; exact h
  | cons person rest ih =>
    intro placed h
    rw [placeAllGeneralAux]
    split
    · exact ih placed h
    · rename_i item heq
      apply ih
      rw [List.pairwise_append]
      refine ⟨h, by simp, ?_⟩
      obtain ⟨-, -, -, hnc, -⟩ := placePerson_eq cfg placed person item heq
      intro p hp b hb
      rw [List.mem_singleton] at hb
      subst hb
      intro hover
      have hfalse := hnc p hp
      rw [lineOverlapCheck] at hfalse
      have hnot := of_decide_eq_false hfalse
      refine le_of_not_lt (fun hlt => hnot ⟨⟨hover.2, hover.1⟩, ?_⟩)
      rw [abs_sub_comm]
      exact hlt

theorem placeAllGeneral_pairwise (cfg : BandConfig) (people : List Person) :
    (placeAllGeneral cfg people).Pairwise (noCollide cfg) :=
  placeAllGeneralAux_pairwise cfg people [] List.Pairwise.nil

theorem assignColorsStep_geom (acc : List PlacedItem) (item : PlacedItem) :
    (assignColorsStep acc item).lineY = item.lineY ∧
      (assignColorsStep acc item).startX = item.startX ∧
      (assignColorsStep acc item).endX = item.endX := by
  unfold assignColorsStep
  cases h : item.person.color <;> simp [h]

theorem assignColorsAux_pairwise (cfg : BandConfig) :
    ∀ (rest acc : List PlacedItem),
      (acc ++ rest).Pairwise (noCollide cfg) →
      (assignColorsAux acc rest).Pairwise (noCollide cfg) := by
  intro rest
  induction rest with
  | nil => intro acc h; rw [assignColorsAux]; simpa using h
  | cons item rest' ih =>
    intro acc h
    rw [assignColorsAux]
    obtain ⟨g1, g2, g3⟩ := assignColorsStep_geom acc item
    rw [List.pairwise_append] at h
    obtain ⟨hacc, hcons, hcross⟩ := h
    rw [List.pairwise_cons] at hcons
    obtain ⟨hitem, hrest⟩ := hcons
    apply ih
    rw [List.append_assoc, List.singleton_append, List.pairwise_append]
    refine ⟨hacc, ?_, ?_⟩
    · rw [List.pairwise_cons]
      refine ⟨?_, hrest⟩
      intro b hb
      exact noCollide_congr cfg g1 g2 g3 rfl rfl rfl (hitem b hb)
    · intro a ha b hb
      rcases List.mem_cons.mp hb with hb | hb
      · subst hb
        exact noCollide_congr cfg rfl rfl rfl g1 g2 g3
          (hcross a ha item (List.mem_cons_self _ _))
      · exact hcross a ha b (List.mem_cons_of_mem _ hb)

/-- C1: in a band laid out by the general placement algorithm (the
non-presidents branch of `drawPeopleBand`), any two placed items whose
pixel time ranges overlap horizontally — with the one-calendar-year
minimum separation `minTimelineGap` added — have resolved line Y
positions at least `lineGap` (6px) apart. -/
theorem C1_no_line_collision (cfg : BandConfig) (events : List Person)
    (hpres : cfg.isPresidentsBand = false) :
    (drawPeopleBand cfg events).Pairwise (noCollide cfg) := by
  unfold drawPeopleBand
  rw [if_neg (by rw [hpres]; exact Bool.false_ne_true)]
  apply assignColorsAux_pairwise
  rw [List.nil_append]
  have hperm := List.perm_insertionSort lineYLE (placeAllGeneral cfg (sortedPeople cfg events))
  exact ((hperm.pairwise_iff (fun h => noCollide_symm cfg h)).mpr
    (placeAllGeneral_pairwise cfg (sortedPeople cfg events)))

/-- C1 witness: the no-collision invariant at a concrete band with two
identically timed point events. -/
theorem C1_no_line_collision_witness :
    cfgC1W.isPresidentsBand = false ∧
      (drawPeopleBand cfgC1W [personC1A, personC1B]).Pairwise (noCollide cfgC1W) :=
  ⟨rfl, C1_no_line_collision cfgC1W [personC1A, personC1B] rfl⟩

theorem placeAllGeneralAux_append (cfg : BandConfig) :
    ∀ (l1 l2 : List Person) (placed : List PlacedItem),
      placeAllGeneralAux cfg placed (l1 ++ l2) =
        placeAllGeneralAux cfg (placeAllGeneralAux cfg placed l1) l2 := by
  intro l1
  induction l1 with
  | nil => intro l2 placed; rfl
  | cons person rest ih =>
    intro l2 placed
    rw [List.cons_append, placeAllGeneralAux, placeAllGeneralAux]
    cases heq : placePerson cfg placed person with
    | none => simp only [heq]; exact ih l2 placed
    | some item => simp only [heq]; exact ih l2 (placed ++ [item])

theorem placeAllGeneralAux_height (cfg : BandConfig) :
    ∀ (people : List Person) (placed : List PlacedItem),
      (∀ i ∈ placed, i.lineY + textHeight - cfg.bandY ≤ cfg.maxHeight) →
      ∀ i ∈ placeAllGeneralAux cfg placed people,
        i.lineY + textHeight - cfg.bandY ≤ cfg.maxHeight := by
  intro people
  induction people with
  | nil => intro placed h; exact h
  | cons person rest ih =>
    intro placed h
    rw [placeAllGeneralAux]
    split
    · exact ih placed h
    · rename_i item heq
      apply ih
      intro i hi
      rcases List.mem_append.mp hi with hi2 | hi2
      · exact h i hi2
      · rw [List.mem_singleton] at hi2
        subst hi2
        exact (placePerson_eq cfg placed person i heq).2.2.2.2

/-- C2: when an item of the general branch cannot be placed — the loop
runs out of its 50-round bound or the candidate position exceeds the
band's height budget, exactly the cases in which `placePerson` returns
`none` — the item is silently absent from the output and every other item
is placed exactly as if the failing item had not been given; moreover no
placed item ever exceeds the height budget.  The layout function is total:
no error is raised. -/
theorem C2_silent_omission (cfg : BandConfig) (pre post : List Person) (person : Person)
    (hfail : placePerson cfg (placeAllGeneral cfg pre) person = none) :
    placeAllGeneral cfg (pre ++ person :: post) = placeAllGeneral cfg (pre ++ post) ∧
      ∀ item ∈ placeAllGeneral cfg (pre ++ person :: post),
        item.lineY + textHeight - cfg.bandY ≤ cfg.maxHeight := by
  constructor
  · unfold placeAllGeneral at hfail ⊢
    rw [placeAllGeneralAux_append, placeAllGeneralAux_append, placeAllGeneralAux]
    simp only [hfail]
  · exact placeAllGeneralAux_height cfg (pre ++ person :: post) [] (by simp)

theorem placeLoop_none_of_height (cfg : BandConfig) (placedItems : List PlacedItem)
    (startX endX textWidth textMaxStartX : ℚ) (fuel : ℕ) (lineY : ℚ)
    (h : cfg.maxHeight < lineY + textHeight - cfg.bandY) :
    placeLoop cfg placedItems startX endX textWidth textMaxStartX (fuel + 1) lineY = none := by
  rw [placeLoop, if_pos h]

theorem placePerson_none_of_height (cfg : BandConfig) (person : Person)
    (placed : List PlacedItem) (h : cfg.maxHeight < cfg.baseY + textHeight - cfg.bandY) :
    placePerson cfg placed person = none := by
  unfold placePerson
  rw [(by norm_num : (50 : ℕ) = 49 + 1), placeLoop_none_of_height cfg placed _ _ _ _ 49 _ h]

/-- C2 witness: a concrete failing placement, with the omission equation
and the budget bound instantiated. -/
theorem C2_silent_omission_witness :
    placePerson cfgC2W (placeAllGeneral cfgC2W []) personC1A = none ∧
      (placeAllGeneral cfgC2W ([] ++ personC1A :: [personC1B]) =
          placeAllGeneral cfgC2W ([] ++ [personC1B]) ∧
        ∀ item ∈ placeAllGeneral cfgC2W ([] ++ personC1A :: [personC1B]),
          item.lineY + textHeight - cfgC2W.bandY ≤ cfgC2W.maxHeight) := by
  have hfail : placePerson cfgC2W (placeAllGeneral cfgC2W []) personC1A = none :=
    placePerson_none_of_height cfgC2W personC1A _
      (by norm_num [cfgC2W, textHeight, fontSize])
  exact ⟨hfail, C2_silent_omission cfgC2W [] [personC1B] personC1A hfail⟩

theorem count_filter_decide (l : List Person) (k : ℤ) (a : Person) :
    List.count a (l.filter (fun p => decide (p.priority = k))) =
      if a.priority = k then List.count a l else 0 := by
  by_cases h : a.priority = k
  · rw [if_pos h]
    exact List.count_filter (by simpa using h)
  · rw [if_neg h]
    rw [List.count_eq_zero]
    intro hmem
    exact h (by simpa using (List.mem_filter.mp hmem).2)

theorem sum_map_count_ite (ks : List ℤ) (pr : ℤ) (c : ℕ) :
    (ks.map (fun k => if pr = k then c else 0)).sum = (List.count pr ks) * c := by
  induction ks with
  | nil => simp
  | cons k ks ih =>
    rw [List.map_cons, List.sum_cons, ih, List.count_cons]
    by_cases h : pr = k
    · simp only [if_pos h, h, beq_self_eq_true, if_true]
      ring
    · have hne : ¬ (k == pr) = true := by simpa using fun he => h he.symm
      simp only [if_neg h, if_neg hne]
      ring

theorem flatMap_filter_perm (l : List Person) (ks : List ℤ) (hnd : ks.Nodup)
    (hcov : ∀ p ∈ l, p.priority ∈ ks) :
    (ks.flatMap (fun k => l.filter (fun p => decide (p.priority = k)))).Perm l := by
  rw [List.perm_iff_count]
  intro a
  rw [List.count_flatMap]
  have hmap : (List.map (List.count a ∘ fun k => l.filter (fun p => decide (p.priority = k))) ks)
      = ks.map (fun k => if a.priority = k then List.count a l else 0) := by
    apply List.map_congr_left
    intro k _
    exact count_filter_decide l k a
  rw [hmap, sum_map_count_ite]
  by_cases hmem : a ∈ l
  · rw [List.count_eq_one_of_mem hnd (hcov a hmem), one_mul]
  · rw [List.count_eq_zero.mpr hmem, mul_zero]

theorem flatMap_perm_congr (ks : List ℤ) (f g : ℤ → List Person)
    (h : ∀ k ∈ ks, (f k).Perm (g k)) : (ks.flatMap f).Perm (ks.flatMap g) := by
  induction ks with
  | nil => simp
  | cons k ks ih =>
    rw [List.flatMap_cons, List.flatMap_cons]
    exact (h k (List.mem_cons_self _ _)).append
      (ih (fun k2 hk2 => h k2 (List.mem_cons_of_mem _ hk2)))

theorem sortedPriorities_nodup (cfg : BandConfig) (events : List Person) :
    (sortedPriorities cfg events).Nodup := by
  unfold sortedPriorities
  exact (List.perm_insertionSort _ _).symm.nodup (List.nodup_dedup _)

theorem sortedPeople_perm (cfg : BandConfig) (events : List Person) :
    (sortedPeople cfg events).Perm (visiblePeople cfg events) := by
  unfold sortedPeople
  have hks_nodup : (sortedPriorities cfg events).Nodup := sortedPriorities_nodup cfg events
  have hks_cov : ∀ p ∈ visiblePeople cfg events, p.priority ∈ sortedPriorities cfg events := by
    intro p hp
    unfold sortedPriorities
    rw [(List.perm_insertionSort _ _).mem_iff, List.mem_dedup]
    exact List.mem_map_of_mem _ hp
  refine List.Perm.trans ?_
    (flatMap_filter_perm (visiblePeople cfg events) (sortedPriorities cfg events)
      hks_nodup hks_cov)
  exact flatMap_perm_congr _ _ _ (fun k _ => List.perm_insertionSort effEndGE _)

theorem pairwise_flatMap_groups (ks : List ℤ) (f : ℤ → List Person)
    (R : Person → Person → Prop)
    (hks : ks.Pairwise (· < ·))
    (hgroup : ∀ k ∈ ks, (f k).Pairwise R)
    (hcross : ∀ k1 k2 : ℤ, k1 < k2 → ∀ p ∈ f k1, ∀ q ∈ f k2, R p q) :
    (ks.flatMap f).Pairwise R := by
  induction ks with
  | nil => simp
  | cons k ks ih =>
    rw [List.flatMap_cons, List.pairwise_append]
    rw [List.pairwise_cons] at hks
    refine ⟨hgroup k (List.mem_cons_self _ _),
      ih hks.2 (fun k2 hk2 => hgroup k2 (List.mem_cons_of_mem _ hk2)), ?_⟩
    intro p hp q hq
    obtain ⟨k2, hk2, hq2⟩ := List.mem_flatMap.mp hq
    exact hcross k k2 (hks.1 k2 hk2) p hp q hq2

theorem sortedPriorities_lt (cfg : BandConfig) (events : List Person) :
    (sortedPriorities cfg events).Pairwise (· < ·) := by
  have hs : (sortedPriorities cfg events).Pairwise (· ≤ ·) :=
    List.sorted_insertionSort _ _
  have hn : (sortedPriorities cfg events).Nodup := sortedPriorities_nodup cfg events
  exact (hs.and hn).imp (fun h => lt_of_le_of_ne h.1 h.2)

theorem mem_group_priority (cfg : BandConfig) (events : List Person) (k : ℤ) (p : Person)
    (hp : p ∈ ((visiblePeople cfg events).filter
      (fun q => decide (q.priority = k))).insertionSort effEndGE) :
    p.priority = k := by
  have := (List.perm_insertionSort effEndGE _).mem_iff.mp hp
  simpa using (List.mem_filter.mp this).2

/-- C3, corrected: `sortedPeople` is a permutation of the visible items,
ordered by priority ascending and — within equal priority — by the code's
effective end (`endTimestamp || startTimestamp`, JavaScript `||`, which
also falls back to the start timestamp when the end timestamp is zero)
descending. -/
theorem C3_amended_ordering (cfg : BandConfig) (events : List Person) :
    (sortedPeople cfg events).Perm (visiblePeople cfg events) ∧
      (sortedPeople cfg events).Pairwise (fun a b =>
        a.priority ≤ b.priority ∧
          (a.priority = b.priority → effectiveEnd b ≤ effectiveEnd a)) := by
  refine ⟨sortedPeople_perm cfg events, ?_⟩
  unfold sortedPeople
  apply pairwise_flatMap_groups _ _ _ (sortedPriorities_lt cfg events)
  · intro k _
    have hsorted : (((visiblePeople cfg events).filter
        (fun q => decide (q.priority = k))).insertionSort effEndGE).Pairwise effEndGE :=
      List.sorted_insertionSort effEndGE _
    refine hsorted.imp_of_mem ?_
    intro a b ha hb hR
    have hpa := mem_group_priority cfg events k a ha
    have hpb := mem_group_priority cfg events k b hb
    exact ⟨by rw [hpa, hpb], fun _ => hR⟩
  · intro k1 k2 hlt p hp q hq
    have hpp := mem_group_priority cfg events k1 p hp
    have hpq := mem_group_priority cfg events k2 q hq
    constructor
    · rw [hpp, hpq]; exact le_of_lt hlt
    · intro heq
      rw [hpp, hpq] at heq
      exact absurd heq (ne_of_lt hlt)

/-- C3, counterexample: with an end timestamp of 0 (year 0), the code's
`endTimestamp || startTimestamp` falls back to the start timestamp, so the
produced order `[B, A]` violates the claim's rule (effective end = the end
timestamp when present, which would put A's 0 before B's −10). -/
theorem C3_counterexample_zero_end :
    ¬ (sortedPeople cfgC3 [personC3A, personC3B]).Pairwise (fun a b =>
        a.priority ≤ b.priority ∧
          (a.priority = b.priority → claimEffectiveEnd b ≤ claimEffectiveEnd a)) := by
  decide

theorem placePresidentsAux_length (cfg : BandConfig) :
    ∀ (people : List Person) (index : ℕ),
      (placePresidentsAux cfg index people).length = people.length := by
  intro people
  induction people with
  | nil => intro i; rfl
  | cons p rest ih =>
    intro i
    rw [placePresidentsAux]
    simpa using ih (i + 1)

theorem placePresidentsAux_person (cfg : BandConfig) :
    ∀ (people : List Person) (index : ℕ) (item : PlacedItem),
      item ∈ placePresidentsAux cfg index people →
      ∃ p ∈ people, item.person = { p with personColor := item.person.personColor } := by
  intro people
  induction people with
  | nil => intro i item h; exact absurd h (by simp [placePresidentsAux])
  | cons p rest ih =>
    intro i item h
    rw [placePresidentsAux] at h
    rcases List.mem_cons.mp h with h2 | h2
    · refine ⟨p, List.mem_cons_self _ _, ?_⟩
      rw [h2]
    · obtain ⟨q, hq, hqe⟩ := ih (i + 1) item h2
      exact ⟨q, List.mem_cons_of_mem _ hq, hqe⟩

theorem placePresidentsAux_pairwise (cfg : BandConfig) :
    ∀ (people : List Person) (index : ℕ),
      people.Pairwise startTsLE →
      (placePresidentsAux cfg index people).Pairwise
        (fun a b => a.person.startTimestamp ≤ b.person.startTimestamp) := by
  intro people
  induction people with
  | nil => intro i _; simp [placePresidentsAux]
  | cons p rest ih =>
    intro i h
    rw [List.pairwise_cons] at h
    rw [placePresidentsAux, List.pairwise_cons]
    refine ⟨?_, ih (i + 1) h.2⟩
    intro b hb
    obtain ⟨q, hq, hqe⟩ := placePresidentsAux_person cfg rest (i + 1) b hb
    have hbq : b.person.startTimestamp = q.startTimestamp := by rw [hqe]
    show p.startTimestamp ≤ b.person.startTimestamp
    rw [hbq]
    exact h.1 q hq

theorem placePresidentsAux_lineY (cfg : BandConfig) :
    ∀ (people : List Person) (index i : ℕ), i < people.length →
      ((placePresidentsAux cfg index people).getD i default).lineY =
        if (index + i) % 2 = 0 then cfg.baseY else cfg.baseY + lineGap * 3 := by
  intro people
  induction people with
  | nil => intro index i h; exact absurd h (by simp)
  | cons p rest ih =>
    intro index i h
    rw [placePresidentsAux]
    cases i with
    | zero => simp
    | succ i2 =>
      rw [List.getD_cons_succ, ih (index + 1) i2 (by simpa using h)]
      have harith : (index + 1 + i2) % 2 = (index + (i2 + 1)) % 2 := by omega
      rw [harith]

/-- C10: on a presidents band, every visible item is placed (the output
has exactly one entry per visible item, whatever the height budget), the
entries are in ascending start-timestamp order, and the item at
chronological index `i` sits on the upper fixed line (`baseY`) when `i` is
even and `lineGap * 3 = 18` pixels lower when `i` is odd — with no
collision check or retry bound. -/
theorem C10_presidents_alternating (cfg : BandConfig) (events : List Person)
    (hpres : cfg.isPresidentsBand = true) :
    (drawPeopleBand cfg events).length = (visiblePeople cfg events).length ∧
      (drawPeopleBand cfg events).Pairwise
        (fun a b => a.person.startTimestamp ≤ b.person.startTimestamp) ∧
      ∀ i, i < (drawPeopleBand cfg events).length →
        ((drawPeopleBand cfg events).getD i default).lineY =
          if i % 2 = 0 then cfg.baseY else cfg.baseY + lineGap * 3 := by
  unfold drawPeopleBand
  rw [if_pos hpres]
  unfold placePresidents
  refine ⟨?_, ?_, ?_⟩
  · rw [placePresidentsAux_length, List.length_insertionSort]
    exact (sortedPeople_perm cfg events).length_eq
  · exact placePresidentsAux_pairwise cfg _ 0 (List.sorted_insertionSort startTsLE _)
  · intro i hi
    rw [placePresidentsAux_length, List.length_insertionSort] at hi
    have hlen : i < (List.insertionSort startTsLE (sortedPeople cfg events)).length := by
      rw [List.length_insertionSort]
      exact hi
    rw [placePresidentsAux_lineY cfg _ 0 i hlen]
    simp

/-- C10 witness: the presidents layout at a concrete two-item band. -/
theorem C10_presidents_alternating_witness :
    cfgC10W.isPresidentsBand = true ∧
      ((drawPeopleBand cfgC10W [personC1A, personC1B]).length =
          (visiblePeople cfgC10W [personC1A, personC1B]).length ∧
        (drawPeopleBand cfgC10W [personC1A, personC1B]).Pairwise
          (fun a b => a.person.startTimestamp ≤ b.person.startTimestamp) ∧
        ∀ i, i < (drawPeopleBand cfgC10W [personC1A, personC1B]).length →
          ((drawPeopleBand cfgC10W [personC1A, personC1B]).getD i default).lineY =
            if i % 2 = 0 then cfgC10W.baseY else cfgC10W.baseY + lineGap * 3) :=
  ⟨rfl, C10_presidents_alternating cfgC10W [personC1A, personC1B] rfl⟩

theorem assignColorsAux_append_acc : ∀ (rest acc : List PlacedItem),
    ∃ t, assignColorsAux acc rest = acc ++ t := by
  intro rest
  induction rest with
  | nil => intro acc; exact ⟨[], by simp [assignColorsAux]⟩
  | cons item rest' ih =>
    intro acc
    obtain ⟨t, ht⟩ := ih (acc ++ [assignColorsStep acc item])
    rw [assignColorsAux, ht, List.append_assoc]
    exact ⟨_, rfl⟩

theorem assignColorsAux_getD : ∀ (rest acc : List PlacedItem) (i : ℕ), i < rest.length →
    (assignColorsAux acc rest).getD (acc.length + i) default =
      assignColorsStep ((assignColorsAux acc rest).take (acc.length + i))
        (rest.getD i default) := by
  intro rest
  induction rest with
  | nil => intro acc i h; exact absurd h (by simp)
  | cons item rest' ih =>
    intro acc i h
    cases i with
    | zero =>
      rw [assignColorsAux]
      obtain ⟨t, ht⟩ := assignColorsAux_append_acc rest' (acc ++ [assignColorsStep acc item])
      rw [ht, List.append_assoc, Nat.add_zero, List.getD_eq_getElem?_getD,
        List.getElem?_append_right (le_refl acc.length), List.take_left, List.getD_cons_zero]
      simp
    | succ i2 =>
      rw [assignColorsAux]
      have harith : acc.length + (i2 + 1) = (acc ++ [assignColorsStep acc item]).length + i2 := by
        simp
        omega
      rw [harith, ih (acc ++ [assignColorsStep acc item]) i2 (by simpa using h),
        List.getD_cons_succ]

theorem assignColors_getD (items : List PlacedItem) (i : ℕ) (hi : i < items.length) :
    (assignColors items).getD i default =
      assignColorsStep ((assignColors items).take i) (items.getD i default) := by
  have h := assignColorsAux_getD items [] i hi
  simpa using h

theorem colorDistanceSq_nonneg (c1 c2 : Color) : 0 ≤ colorDistanceSq c1 c2 := by
  unfold colorDistanceSq
  positivity

theorem minDistanceTo_nonneg (cand : Color) (recent : List Color) :
    (0 : WithTop ℚ) ≤ minDistanceTo cand recent := by
  unfold minDistanceTo
  suffices hgen : ∀ (init : WithTop ℚ), 0 ≤ init →
      0 ≤ recent.foldl (fun m rc => min m ((colorDistanceSq cand rc : ℚ) : WithTop ℚ)) init by
    exact hgen ⊤ le_top
  induction recent with
  | nil => intro init hinit; exact hinit
  | cons rc rest ih =>
    intro init hinit
    rw [List.foldl_cons]
    apply ih
    refine le_min hinit ?_
    exact_mod_cast colorDistanceSq_nonneg cand rc

theorem bestColorFold_cons (recent : List Color) (cand : Color) (rest : List Color)
    (st : Color × WithTop ℚ) :
    bestColorFold recent (cand :: rest) st =
      bestColorFold recent rest
        (if st.2 < minDistanceTo cand recent then (cand, minDistanceTo cand recent) else st) := by
  rw [bestColorFold, List.foldl_cons]
  rfl

theorem bestColorFold_spec (recent : List Color) :
    ∀ (l : List Color) (st : Color × WithTop ℚ),
      st.2 ≤ (bestColorFold recent l st).2 ∧
        (∀ c ∈ l, minDistanceTo c recent ≤ (bestColorFold recent l st).2) ∧
        (bestColorFold recent l st = st ∨
          ((bestColorFold recent l st).1 ∈ l ∧
            (bestColorFold recent l st).2 =
              minDistanceTo (bestColorFold recent l st).1 recent)) := by
  intro l
  induction l with
  | nil => intro st; exact ⟨le_refl _, by simp, Or.inl rfl⟩
  | cons cand rest ih =>
    intro st
    rw [bestColorFold_cons]
    by_cases hup : st.2 < minDistanceTo cand recent
    · rw [if_pos hup]
      obtain ⟨h1, h2, h3⟩ := ih (cand, minDistanceTo cand recent)
      refine ⟨le_trans (le_of_lt hup) h1, ?_, ?_⟩
      · intro c hc
        rcases List.mem_cons.mp hc with hc2 | hc2
        · subst hc2; exact le_trans (le_refl _) h1
        · exact h2 c hc2
      · rcases h3 with h3 | h3
        · right
          rw [h3]
          exact ⟨List.mem_cons_self _ _, rfl⟩
        · exact Or.inr ⟨List.mem_cons_of_mem _ h3.1, h3.2⟩
    · rw [if_neg hup]
      obtain ⟨h1, h2, h3⟩ := ih st
      refine ⟨h1, ?_, ?_⟩
      · intro c hc
        rcases List.mem_cons.mp hc with hc2 | hc2
        · subst hc2; exact le_trans (le_of_not_lt hup) h1
        · exact h2 c hc2
      · rcases h3 with h3 | h3
        · exact Or.inl h3
        · exact Or.inr ⟨List.mem_cons_of_mem _ h3.1, h3.2⟩

theorem chooseBestColor_spec (recent : List Color) (hne : recent ≠ []) :
    chooseBestColor recent ∈ colors ∧
      ∀ cand ∈ colors,
        minDistanceTo cand recent ≤ minDistanceTo (chooseBestColor recent) recent := by
  unfold chooseBestColor
  rw [if_neg (by simp [List.isEmpty_iff, hne])]
  obtain ⟨h1, h2, h3⟩ := bestColorFold_spec recent colors (colors.headI, ((-1 : ℚ) : WithTop ℚ))
  rcases h3 with h3 | h3
  · exfalso
    have hh := h2 colors.headI (by decide)
    rw [h3] at hh
    have hnn := minDistanceTo_nonneg colors.headI recent
    have hcontra : ((0 : ℚ) : WithTop ℚ) ≤ ((-1 : ℚ) : WithTop ℚ) := by
      refine le_trans ?_ hh
      exact_mod_cast hnn
    have : (0 : ℚ) ≤ -1 := by exact_mod_cast hcontra
    norm_num at this
  · exact ⟨h3.1, fun cand hc => h3.2 ▸ h2 cand hc⟩

/-- C6: in the color pass over the placed items in final vertical order,
the item at index `i` keeps its forced color unconditionally when it has
one; otherwise, when the visually-near set (`recentColorsOf` over the
already-colored prefix) is empty it receives the first palette color, and
when the near set is non-empty it receives a palette color maximizing the
minimum (squared) Euclidean RGB distance to the near set's colors. -/
theorem C6_color_choice (items : List PlacedItem) (i : ℕ) (hi : i < items.length) :
    (∀ c, (items.getD i default).person.color = some c →
        ((assignColors items).getD i default).person.personColor = some c) ∧
      ((items.getD i default).person.color = none →
        (recentColorsOf ((assignColors items).take i) (items.getD i default) = [] →
            ((assignColors items).getD i default).person.personColor = some colors.headI) ∧
          (recentColorsOf ((assignColors items).take i) (items.getD i default) ≠ [] →
            ∃ ch, ((assignColors items).getD i default).person.personColor = some ch ∧
              ch ∈ colors ∧
              ∀ cand ∈ colors,
                minDistanceTo cand
                    (recentColorsOf ((assignColors items).take i) (items.getD i default)) ≤
                  minDistanceTo ch
                    (recentColorsOf ((assignColors items).take i) (items.getD i default)))) := by
  rw [assignColors_getD items i hi]
  constructor
  · intro c hc
    simp only [assignColorsStep, hc]
  · intro hnone
    constructor
    · intro hempty
      by_cases hlen : ((assignColors items).take i).length = 0
      · simp only [assignColorsStep, hnone, if_pos hlen]
      · simp only [assignColorsStep, hnone, if_neg hlen, hempty, chooseBestColor,
          List.isEmpty_nil, if_true]
    · intro hne
      have hlen : ((assignColors items).take i).length ≠ 0 := by
        intro h0
        apply hne
        unfold recentColorsOf
        rw [h0]
        simp
      obtain ⟨hmem, hmax⟩ :=
        chooseBestColor_spec
          (recentColorsOf ((assignColors items).take i) (items.getD i default)) hne
      refine ⟨chooseBestColor
        (recentColorsOf ((assignColors items).take i) (items.getD i default)), ?_, hmem, hmax⟩
      simp only [assignColorsStep, hnone, if_neg hlen]

/-- C6 witness: the color-choice characterization at index 1 of a
concrete placed list. -/
theorem C6_color_choice_witness :
    1 < itemsC6W.length ∧
      ((∀ c, (itemsC6W.getD 1 default).person.color = some c →
          ((assignColors itemsC6W).getD 1 default).person.personColor = some c) ∧
        ((itemsC6W.getD 1 default).person.color = none →
          (recentColorsOf ((assignColors itemsC6W).take 1) (itemsC6W.getD 1 default) = [] →
              ((assignColors itemsC6W).getD 1 default).person.personColor = some colors.headI) ∧
            (recentColorsOf ((assignColors itemsC6W).take 1) (itemsC6W.getD 1 default) ≠ [] →
              ∃ ch, ((assignColors itemsC6W).getD 1 default).person.personColor = some ch ∧
                ch ∈ colors ∧
                ∀ cand ∈ colors,
                  minDistanceTo cand
                      (recentColorsOf ((assignColors itemsC6W).take 1)
                        (itemsC6W.getD 1 default)) ≤
                    minDistanceTo ch
                      (recentColorsOf ((assignColors itemsC6W).take 1)
                        (itemsC6W.getD 1 default))))) :=
  ⟨by simp [itemsC6W], C6_color_choice itemsC6W 1 (by simp [itemsC6W])⟩

theorem assignColorsStep_person (acc : List PlacedItem) (item : PlacedItem) :
    (assignColorsStep acc item).person =
      { item.person with personColor := (assignColorsStep acc item).person.personColor } := by
  unfold assignColorsStep
  cases h : item.person.color <;> simp [h]

theorem assignColorsAux_person : ∀ (rest acc : List PlacedItem) (item : PlacedItem),
    item ∈ assignColorsAux acc rest →
    item ∈ acc ∨ ∃ y ∈ rest,
      item.person = { y.person with personColor := item.person.personColor } := by
  intro rest
  induction rest with
  | nil => intro acc item h; rw [assignColorsAux] at h; exact Or.inl h
  | cons y rest' ih =>
    intro acc item h
    rw [assignColorsAux] at h
    rcases ih _ item h with h2 | h2
    · rcases List.mem_append.mp h2 with h3 | h3
      · exact Or.inl h3
      · rw [List.mem_singleton] at h3
        right
        refine ⟨y, List.mem_cons_self _ _, ?_⟩
        rw [h3]
        exact assignColorsStep_person acc y
    · obtain ⟨z, hz, hze⟩ := h2
      exact Or.inr ⟨z, List.mem_cons_of_mem _ hz, hze⟩

theorem placeAllGeneralAux_mem (cfg : BandConfig) : ∀ (people : List Person)
    (placed : List PlacedItem) (item : PlacedItem),
    item ∈ placeAllGeneralAux cfg placed people →
    item ∈ placed ∨ ∃ p ∈ people, item.person = p := by
  intro people
  induction people with
  | nil => intro placed item h; exact Or.inl h
  | cons person rest ih =>
    intro placed item h
    rw [placeAllGeneralAux] at h
    split at h
    · rcases ih placed item h with h2 | ⟨p, hp, he⟩
      · exact Or.inl h2
      · exact Or.inr ⟨p, List.mem_cons_of_mem _ hp, he⟩
    · rename_i pl heq
      rcases ih _ item h with h2 | ⟨p, hp, he⟩
      · rcases List.mem_append.mp h2 with h3 | h3
        · exact Or.inl h3
        · rw [List.mem_singleton] at h3
          right
          refine ⟨person, List.mem_cons_self _ _, ?_⟩
          rw [h3]
          exact (placePerson_eq cfg placed person pl heq).1
      · exact Or.inr ⟨p, List.mem_cons_of_mem _ hp, he⟩

theorem sortedPeople_subset (cfg : BandConfig) (events : List Person) :
    ∀ p ∈ sortedPeople cfg events, p ∈ events := by
  intro p hp
  have hv := (sortedPeople_perm cfg events).mem_iff.mp hp
  exact (List.mem_filter.mp hv).1

/-- C7, corrected: the layout pass does write onto its input items — the
resolved color is stored in the `personColor` field of the person record
each placement carries (in the source, the very same object as the input
item) — but nothing else: every placed item's person record equals a
source item with only `personColor` overwritten.  The resolved line and
label positions are recorded only in the separate placed-item record. -/
theorem C7_amended_mutation_only_personColor (cfg : BandConfig) (events : List Person) :
    ∀ item ∈ drawPeopleBand cfg events, ∃ src ∈ events,
      item.person = { src with personColor := item.person.personColor } := by
  intro item hmem
  unfold drawPeopleBand at hmem
  split at hmem
  · unfold placePresidents at hmem
    obtain ⟨p, hp, he⟩ := placePresidentsAux_person cfg _ 0 item hmem
    exact ⟨p, sortedPeople_subset cfg events p
      ((List.perm_insertionSort startTsLE _).mem_iff.mp hp), he⟩
  · unfold assignColors at hmem
    rcases assignColorsAux_person _ [] item hmem with h2 | ⟨y, hy, hye⟩
    · exact absurd h2 (List.not_mem_nil item)
    · have hy2 := (List.perm_insertionSort lineYLE _).mem_iff.mp hy
      unfold placeAllGeneral at hy2
      rcases placeAllGeneralAux_mem cfg _ [] y hy2 with h3 | ⟨p, hp, hpe⟩
      · exact absurd h3 (List.not_mem_nil y)
      · refine ⟨p, sortedPeople_subset cfg events p hp, ?_⟩
        rw [hye, hpe]

theorem placeLoop_first_round (cfg : BandConfig) (startX endX textWidth textMaxStartX : ℚ)
    (fuel : ℕ) (lineY : ℚ)
    (hh : ¬ cfg.maxHeight < lineY + textHeight - cfg.bandY)
    (ht : ¬ textMaxStartX < startX) :
    placeLoop cfg [] startX endX textWidth textMaxStartX (fuel + 1) lineY =
      some (lineY, startX) := by
  rw [placeLoop, if_neg hh]
  have hnear : nearbyItemsOf ([] : List PlacedItem) lineY = [] := rfl
  simp only [List.find?_nil, hnear, List.length_nil]
  rw [textScan, if_neg ht]
  simp only [List.find?_nil]

theorem placePerson_empty (cfg : BandConfig) (person : Person)
    (hh : ¬ cfg.maxHeight < cfg.baseY + textHeight - cfg.bandY)
    (ht : ¬ textMaxStartXOf cfg person < startXOf cfg person)
    (htx : ¬ startXOf cfg person > maxTextXOf cfg person) :
    placePerson cfg [] person =
      some ⟨person, cfg.baseY, startXOf cfg person, endXOf cfg person,
        startXOf cfg person, textWidthOf person⟩ := by
  unfold placePerson
  rw [(by norm_num : (50 : ℕ) = 49 + 1), placeLoop_first_round cfg _ _ _ _ 49 _ hh ht]
  simp only [if_neg htx]

theorem drawPeopleBand_C7_eval :
    drawPeopleBand cfgC7 [personC7] =
      [⟨{ personC7 with personColor := some colors.headI }, 50, 1900, 1990, 1900, 13⟩] := by
  have hsx : startXOf cfgC7 personC7 = 1900 := by
    norm_num [startXOf, actualStartX, displayYearOf, jsOrInt, cfgC7, personC7]
  have hex : endXOf cfgC7 personC7 = 1990 := by
    norm_num [endXOf, actualEndX, actualStartX, displayYearOf, jsOrInt, cfgC7, personC7]
  have htw : textWidthOf personC7 = 13 := by
    have hl : personC7.name.length = 2 := rfl
    norm_num [textWidthOf, hl, charWidth]
  have hmx : maxTextXOf cfgC7 personC7 = 1977 := by
    have hb : cfgC7.isPeopleBand = true := rfl
    rw [maxTextXOf, hb, if_pos rfl, hsx, hex, htw]
    norm_num
  have htmx : textMaxStartXOf cfgC7 personC7 = 1977 := by
    have hb : cfgC7.isPeopleBand = true := rfl
    rw [textMaxStartXOf, hb, if_pos rfl]
    exact hmx
  have hplace : placePerson cfgC7 [] personC7 =
      some ⟨personC7, 50, 1900, 1990, 1900, 13⟩ := by
    have h1 := placePerson_empty cfgC7 personC7
      (by norm_num [cfgC7, textHeight, fontSize])
      (by rw [htmx, hsx]; norm_num)
      (by rw [hsx, hmx]; norm_num)
    rw [h1, hsx, hex, htw]
    rfl
  have hsort : sortedPeople cfgC7 [personC7] = [personC7] := by decide
  unfold drawPeopleBand
  rw [if_neg (by decide : ¬ cfgC7.isPresidentsBand = true), hsort]
  unfold placeAllGeneral
  rw [placeAllGeneralAux, hplace]
  rfl

/-- C7, counterexample: running the band on a single item hands back a
person record whose `personColor` has been overwritten (the source writes
it onto the same shared object), so the source item is not unchanged
after the layout pass. -/
theorem C7_counterexample_person_mutated :
    (drawPeopleBand cfgC7 [personC7]).map PlacedItem.person ≠ [personC7] := by
  rw [drawPeopleBand_C7_eval]
  decide

/-- C7 witness: the only-`personColor` mutation shape at the concrete
run. -/
theorem C7_amended_witness :
    (⟨{ personC7 with personColor := some colors.headI }, 50, 1900, 1990, 1900, 13⟩ :
        PlacedItem) ∈ drawPeopleBand cfgC7 [personC7] ∧
      ∃ src ∈ [personC7],
        ({ personC7 with personColor := some colors.headI } : Person) =
          { src with personColor :=
              ({ personC7 with personColor := some colors.headI } : Person).personColor } := by
  have hmem : (⟨{ personC7 with personColor := some colors.headI }, 50, 1900, 1990, 1900, 13⟩ :
      PlacedItem) ∈ drawPeopleBand cfgC7 [personC7] := by
    rw [drawPeopleBand_C7_eval]
    exact List.mem_singleton.mpr rfl
  exact ⟨hmem, C7_amended_mutation_only_personColor cfgC7 [personC7] _ hmem⟩

end Histomap

